import Mathlib

/-!
# vim.ai snippet generator: a shallow embedding of `src/utils/generateVimConfig.js`

JavaScript strings are modelled as lists of characters, field values as the
three shapes a form record can hold (absent, string, boolean), and a thrown
exception as the error branch of `Except`.  Each source function is embedded
under its own name; the JavaScript built-ins it calls (`trim`, `split`,
`replace`, `isNaN`, template-literal conversion, property lookup on an object
literal) are embedded next to it following ECMAScript.
-/

namespace VimAi

/-! ## JavaScript values and built-ins -/

/-- A JavaScript string. -/
abbrev Str := List Char

/-- A field value: `undefined` (field absent), a string, or a boolean. -/
inductive Val where
  | undefined : Val
  | str (s : Str) : Val
  | bool (b : Bool) : Val
deriving DecidableEq

/-- The exceptions the generator can raise: `new Error(message)` thrown by the
dispatcher, and the two `TypeError`s of a method call `x.m(...)` whose receiver
is `undefined` or is a value without method `m`. -/
inductive JSError where
  | error (message : Str) : JSError
  | undefinedProperty (method : Str) : JSError
  | notAFunction (callee : Str) : JSError
deriving DecidableEq

/-- The `message` property of a thrown exception.  The text of the two
`TypeError`s is the one V8 produces. -/
def JSError.message : JSError → Str
  | .error m => m
  | .undefinedProperty m =>
      "Cannot read properties of undefined (reading '".toList ++ m ++ "')".toList
  | .notAFunction c => c ++ " is not a function".toList

/-- Conversion applied by a template literal `${v}` (ToString). -/
def toStr : Val → Str
  | .undefined => "undefined".toList
  | .str s => s
  | .bool true => "true".toList
  | .bool false => "false".toList

/-- Truthiness of a value in a condition (ToBoolean). -/
def truthy : Val → Bool
  | .undefined => false
  | .str s => !s.isEmpty
  | .bool b => b

/-- The receiver of a string-method call `name.method(...)`: a string goes
through, `undefined` and booleans raise the engine's `TypeError`. -/
def receiver (name method : String) : Val → Except JSError Str
  | .str s => .ok s
  | .undefined => .error (.undefinedProperty method.toList)
  | .bool _ => .error (.notAFunction (name.toList ++ ".".toList ++ method.toList))

/-- White space and line terminators, the characters `trim` strips and
numeric coercion skips. -/
def isStrWhiteSpaceChar (c : Char) : Bool :=
  let n := c.toNat
  n = 0x09 || n = 0x0A || n = 0x0B || n = 0x0C || n = 0x0D || n = 0x20 ||
  n = 0xA0 || n = 0x1680 || (0x2000 ≤ n && n ≤ 0x200A) || n = 0x2028 ||
  n = 0x2029 || n = 0x202F || n = 0x205F || n = 0x3000 || n = 0xFEFF

/-- The method `String.prototype.trim`. -/
def trim (s : Str) : Str :=
  ((s.dropWhile isStrWhiteSpaceChar).reverse.dropWhile isStrWhiteSpaceChar).reverse

/-- The method `String.prototype.startsWith`. -/
def startsWith (s p : Str) : Bool :=
  s.take p.length = p

/-- The method `String.prototype.split` with a one-character separator. -/
def split (sep : Char) : Str → List Str
  | [] => [[]]
  | c :: cs =>
    if c = sep then [] :: split sep cs
    else
      match split sep cs with
      | [] => [[c]]
      | p :: ps => (c :: p) :: ps

/-- The method `Array.prototype.pop` on an array of strings, as a value: the
last element (`undefined` on an empty array, which `split` never returns). -/
def pop : List Str → Val
  | [] => .undefined
  | [p] => .str p
  | _ :: q :: ps => pop (q :: ps)

/-- The method `String.prototype.replace` with a string pattern: only the
first occurrence is replaced. -/
def replace (pat rep : Str) : Str → Str
  | [] => if pat = [] then rep else []
  | c :: cs =>
    if startsWith (c :: cs) pat then rep ++ (c :: cs).drop pat.length
    else c :: replace pat rep cs

/-- The method `String.prototype.replace` with a global one-character regular
expression (`/c/g`): every occurrence is replaced. -/
def replaceAll (c : Char) (rep : Str) (s : Str) : Str :=
  s.flatMap (fun x => if x = c then rep else [x])

/-- The method `String.prototype.substring(n)`. -/
def substring (n : Nat) (s : Str) : Str := s.drop n

/-- The method `Array.prototype.join`. -/
def join (sep : Str) : List Str → Str
  | [] => []
  | [p] => p
  | p :: q :: ps => p ++ sep ++ join sep (q :: ps)

/-! ### Numeric coercion of a string (`StringToNumber`) -/

def isDecimalDigit (c : Char) : Bool := '0'.toNat ≤ c.toNat && c.toNat ≤ '9'.toNat

def isBinaryDigit (c : Char) : Bool := c = '0' || c = '1'

def isOctalDigit (c : Char) : Bool := '0'.toNat ≤ c.toNat && c.toNat ≤ '7'.toNat

def isHexDigit (c : Char) : Bool :=
  isDecimalDigit c || ('a'.toNat ≤ c.toNat && c.toNat ≤ 'f'.toNat) ||
  ('A'.toNat ≤ c.toNat && c.toNat ≤ 'F'.toNat)

/-- A non-empty run of digits of the given class. -/
def isDigits (p : Char → Bool) (s : Str) : Bool := !s.isEmpty && s.all p

/-- Grammar `SignedInteger`. -/
def isSignedInteger : Str → Bool
  | '+' :: ds => isDigits isDecimalDigit ds
  | '-' :: ds => isDigits isDecimalDigit ds
  | ds => isDigits isDecimalDigit ds

/-- Grammar `ExponentPart`, optional. -/
def isExponentPartOpt : Str → Bool
  | [] => true
  | 'e' :: r => isSignedInteger r
  | 'E' :: r => isSignedInteger r
  | _ => false

/-- Grammar `StrUnsignedDecimalLiteral`. -/
def isStrUnsignedDecimalLiteral (s : Str) : Bool :=
  s = "Infinity".toList ||
  (let ds := s.takeWhile isDecimalDigit
   match s.dropWhile isDecimalDigit with
   | '.' :: r =>
     let fs := r.takeWhile isDecimalDigit
     (!ds.isEmpty || !fs.isEmpty) && isExponentPartOpt (r.dropWhile isDecimalDigit)
   | r => !ds.isEmpty && isExponentPartOpt r)

/-- Grammar `StrDecimalLiteral`. -/
def isStrDecimalLiteral : Str → Bool
  | '+' :: r => isStrUnsignedDecimalLiteral r
  | '-' :: r => isStrUnsignedDecimalLiteral r
  | r => isStrUnsignedDecimalLiteral r

/-- Grammar `NonDecimalIntegerLiteral` (binary, octal, hexadecimal). -/
def isNonDecimalIntegerLiteral : Str → Bool
  | '0' :: 'b' :: r => isDigits isBinaryDigit r
  | '0' :: 'B' :: r => isDigits isBinaryDigit r
  | '0' :: 'o' :: r => isDigits isOctalDigit r
  | '0' :: 'O' :: r => isDigits isOctalDigit r
  | '0' :: 'x' :: r => isDigits isHexDigit r
  | '0' :: 'X' :: r => isDigits isHexDigit r
  | _ => false

/-- Grammar `StringNumericLiteral`: the strings whose numeric coercion is a
number (white space alone coerces to 0). -/
def isStringNumericLiteral (s : Str) : Bool :=
  let t := trim s
  t.isEmpty || isStrDecimalLiteral t || isNonDecimalIntegerLiteral t

/-- The global function `isNaN`: `undefined` coerces to NaN, booleans to 0 or
1, a string to a number exactly when it is a `StringNumericLiteral`. -/
def isNaN : Val → Bool
  | .undefined => true
  | .bool _ => false
  | .str s => !isStringNumericLiteral s

/-! ## The source functions -/

/-- Source `escapeLua`, on a string: three global replacements in sequence. -/
def escapeLuaStr (s : Str) : Str :=
  replaceAll '\n' "\\n".toList
    (replaceAll '\'' "\\'".toList (replaceAll '\\' "\\\\".toList s))

/-- Source `escapeLua`: `str.replace(...)` raises on a non-string argument. -/
def escapeLua (v : Val) : Except JSError Str := do
  let s ← receiver "str" "replace" v
  pure (escapeLuaStr s)

/-- Source `parseLuaValue`.  The local `numeric` is the short-circuit condition
`!isNaN(value) && value.trim() !== ''` of the second `if`. -/
def parseLuaValue (value : Val) : Except JSError Str := do
  if value = .str "true".toList ∨ value = .str "false".toList then
    pure (toStr value)
  else
    let numeric ← (if !isNaN value then do
        let t ← receiver "value" "trim" value
        pure (decide (trim t ≠ []))
      else pure false)
    if numeric then
      pure (toStr value)
    else
      let t ← receiver "value" "trim" value
      if startsWith (trim t) "\x7b".toList || startsWith (trim t) "[".toList then
        pure (toStr value)
      else
        let e ← escapeLua value
        pure ("'".toList ++ e ++ "'".toList)

/-- The fields record `data`: every field the four generators read.  A field
that is absent from the record reads as `undefined`. -/
structure Fields where
  mode : Val := .undefined
  lhs : Val := .undefined
  rhs : Val := .undefined
  description : Val := .undefined
  noremap : Val := .undefined
  buffer : Val := .undefined
  silent : Val := .undefined
  expr : Val := .undefined
  plugin_name : Val := .undefined
  config_type : Val := .undefined
  dependencies : Val := .undefined
  setup_config : Val := .undefined
  add_config : Val := .undefined
  is_optional : Val := .undefined
  option_name : Val := .undefined
  option_value : Val := .undefined
  scope : Val := .undefined
  event : Val := .undefined
  pattern : Val := .undefined
  command : Val := .undefined
  group : Val := .undefined

/-- Own properties of the object literal `modeMap` of `generateKeymap`. -/
def modeMap : List (Str × Str) :=
  [("n".toList, "n".toList), ("i".toList, "i".toList), ("v".toList, "v".toList),
   ("x".toList, "x".toList), ("t".toList, "t".toList), ("c".toList, "c".toList),
   ([], [])]

/-- Text a template literal gives for a built-in function called `name`. -/
def nativeFunctionText (name : String) : Str :=
  "function ".toList ++ name.toList ++ "() \x7b [native code] \x7d".toList

/-- Properties an object literal inherits from `Object.prototype`, each with
the text a template literal gives for its value (V8 wording): eleven built-in
functions and the accessor `__proto__`, whose value is `Object.prototype`. -/
def objectPrototype : List (Str × Str) :=
  [("constructor".toList, nativeFunctionText "Object"),
   ("__defineGetter__".toList, nativeFunctionText "__defineGetter__"),
   ("__defineSetter__".toList, nativeFunctionText "__defineSetter__"),
   ("hasOwnProperty".toList, nativeFunctionText "hasOwnProperty"),
   ("__lookupGetter__".toList, nativeFunctionText "__lookupGetter__"),
   ("__lookupSetter__".toList, nativeFunctionText "__lookupSetter__"),
   ("isPrototypeOf".toList, nativeFunctionText "isPrototypeOf"),
   ("propertyIsEnumerable".toList, nativeFunctionText "propertyIsEnumerable"),
   ("toString".toList, nativeFunctionText "toString"),
   ("valueOf".toList, nativeFunctionText "valueOf"),
   ("toLocaleString".toList, nativeFunctionText "toLocaleString"),
   ("__proto__".toList, "[object Object]".toList)]

/-- The local `prefix` of `generateKeymap`, as the template literal prints it:
`modeMap[mode] || ''`.  The key is the mode converted to a string; an own
property wins, then an inherited one (always truthy), else `undefined || ''`. -/
def modePrefix (mode : Val) : Str :=
  match modeMap.lookup (toStr mode) with
  | some p => p
  | none =>
    match objectPrototype.lookup (toStr mode) with
    | some text => text
    | none => []

/-- The array `opts` of `generateKeymap` (dialect `lua`) after the five
conditional `push` calls. -/
def keymapOpts (data : Fields) : Except JSError (List Str) := do
  let desc ← (if truthy data.description then do
      let d ← escapeLua data.description
      pure ["desc = '".toList ++ d ++ "'".toList]
    else pure [])
  let o2 := if data.noremap ≠ .bool false then ["noremap = true".toList] else []
  let o3 := if truthy data.buffer then ["buffer = true".toList] else []
  let o4 := if truthy data.silent then ["silent = true".toList] else []
  let o5 := if truthy data.expr then ["expr = true".toList] else []
  pure (desc ++ o2 ++ o3 ++ o4 ++ o5)

/-- The command token of `generateKeymap` (other dialects) before the
modifier annotations: the template literal of `prefix` and `mapType`. -/
def keymapCmd (data : Fields) : Str :=
  let mapType := if data.noremap ≠ .bool false then "noremap".toList else "map".toList
  modePrefix data.mode ++ mapType

/-- Source `generateKeymap`. -/
def generateKeymap (data : Fields) (lang : Val) : Except JSError Str := do
  if lang = .str "lua".toList then
    let opts ← keymapOpts data
    let optsStr :=
      if opts.length > 0 then "\x7b ".toList ++ join ", ".toList opts ++ " \x7d".toList
      else "\x7b\x7d".toList
    let modeStr :=
      if truthy data.mode then "'".toList ++ toStr data.mode ++ "'".toList
      else "''".toList
    let comment :=
      if truthy data.description then "-- ".toList ++ toStr data.description ++ "\n".toList
      else []
    let l ← escapeLua data.lhs
    let r ← escapeLua data.rhs
    pure (comment ++ "vim.keymap.set(".toList ++ modeStr ++ ", '".toList ++ l ++
      "', '".toList ++ r ++ "', ".toList ++ optsStr ++ ")".toList)
  else
    let cmd := keymapCmd data
    let cmd := if truthy data.silent then cmd ++ " <silent>".toList else cmd
    let cmd := if truthy data.buffer then cmd ++ " <buffer>".toList else cmd
    let cmd := if truthy data.expr then cmd ++ " <expr>".toList else cmd
    let comment :=
      if truthy data.description then "\" ".toList ++ toStr data.description ++ "\n".toList
      else []
    pure (comment ++ cmd ++ " ".toList ++ toStr data.lhs ++ " ".toList ++ toStr data.rhs)

/-- The array `deps` of `generatePlugin`: the dependency text split on commas,
each piece trimmed, empty pieces filtered out. -/
def parseDeps (dependencies : Str) : List Str :=
  ((split ',' dependencies).map trim).filter (fun d => !d.isEmpty)

/-- The module name passed to `require` in `generatePlugin`:
`plugin_name.split('/').pop().replace('.nvim', '').replace('nvim-', '')`. -/
def moduleName (plugin_name : Val) : Except JSError Str := do
  let p ← receiver "plugin_name" "split" plugin_name
  let seg ← receiver "plugin_name.split(...).pop(...)" "replace" (pop (split '/' p))
  pure (replace "nvim-".toList [] (replace ".nvim".toList [] seg))

/-- The `add_config` block, written twice verbatim in `generatePlugin` (in the
`lazy.nvim` and in the `packer` branch). -/
def configBlock (data : Fields) : Except JSError Str := do
  if truthy data.add_config then
    let m ← moduleName data.plugin_name
    let arg ← (if truthy data.setup_config then do
        let t ← receiver "setup_config" "trim" data.setup_config
        pure (if trim t ≠ [] then trim t else "\x7b\x7d".toList)
      else pure "\x7b\x7d".toList)
    pure (",\n  config = function()".toList ++ "\n    require('".toList ++ m ++
      "').setup(".toList ++ arg ++ ")\n  end".toList)
  else pure []

/-- The `forEach` over `deps` in the `lazy.nvim` branch: one line per
dependency, a comma after every one but the last. -/
def lazyDepLines (deps : List Str) : Str :=
  deps.enum.flatMap (fun (idx, dep) =>
    "\n    '".toList ++ escapeLuaStr dep ++ "'".toList ++
      (if idx < deps.length - 1 then ",".toList else []))

/-- The `forEach` over `deps` in the `packer` branch: all on one line,
separated by a comma and a space. -/
def packerDepItems (deps : List Str) : Str :=
  deps.enum.flatMap (fun (idx, dep) =>
    "'".toList ++ escapeLuaStr dep ++ "'".toList ++
      (if idx < deps.length - 1 then ", ".toList else []))

/-- The `if (dependencies)` block of the two `lua` branches of
`generatePlugin`, given the field opener, the rendering of the items and the
closer of that branch. -/
def depsField (dependencies : Val) (opener : Str) (items : List Str → Str) (closer : Str) :
    Except JSError Str := do
  if truthy dependencies then
    let d ← receiver "dependencies" "split" dependencies
    let deps := parseDeps d
    pure (if deps.length > 0 then opener ++ items deps ++ closer else [])
  else pure []

/-- Source `generatePlugin`. -/
def generatePlugin (data : Fields) (lang : Val) : Except JSError Str := do
  if lang = .str "lua".toList then
    if data.config_type = .str "lazy.nvim".toList then
      let name ← escapeLua data.plugin_name
      let deps ← depsField data.dependencies ",\n  dependencies = \x7b".toList lazyDepLines
        "\n  \x7d".toList
      let lazyField := if truthy data.is_optional then ",\n  lazy = true".toList else []
      let config ← configBlock data
      pure ("\x7b\n  '".toList ++ name ++ "'".toList ++ deps ++ lazyField ++ config ++
        "\n\x7d".toList)
    else if data.config_type = .str "packer".toList then
      let name ← escapeLua data.plugin_name
      let deps ← depsField data.dependencies ",\n  requires = \x7b".toList packerDepItems
        "\x7d".toList
      let optField := if truthy data.is_optional then ",\n  opt = true".toList else []
      let config ← configBlock data
      pure ("use \x7b\n  '".toList ++ name ++ "'".toList ++ deps ++ optField ++ config ++
        "\n\x7d".toList)
    else
      pure ("\" Plugin configuration for ".toList ++ toStr data.plugin_name)
  else
    if data.config_type = .str "vim-plug".toList then
      let depLines ← (if truthy data.dependencies then do
          let d ← receiver "dependencies" "split" data.dependencies
          pure ((parseDeps d).flatMap (fun dep => "\nPlug '".toList ++ dep ++ "'".toList))
        else pure [])
      let lazyNote :=
        if truthy data.is_optional then " \x7b 'on': [] \x7d \" Lazy load".toList else []
      pure ("Plug '".toList ++ toStr data.plugin_name ++ "'".toList ++ depLines ++ lazyNote)
    else if data.config_type = .str "dein".toList then
      pure ("call dein#add('".toList ++ toStr data.plugin_name ++ "')".toList)
    else
      pure ("\" Plugin configuration for ".toList ++ toStr data.plugin_name)

/-- Source `generateOption`. -/
def generateOption (data : Fields) (lang : Val) : Except JSError Str := do
  let scope := if data.scope = .undefined then Val.str "opt".toList else data.scope
  if lang = .str "lua".toList then
    let value ← parseLuaValue data.option_value
    pure ("vim.".toList ++ toStr scope ++ ".".toList ++ toStr data.option_name ++
      " = ".toList ++ value)
  else
    let value := data.option_value
    if value = .str "true".toList then
      pure ("set ".toList ++ toStr data.option_name)
    else if value = .str "false".toList then
      pure ("set no".toList ++ toStr data.option_name)
    else if !isNaN value then
      pure ("set ".toList ++ toStr data.option_name ++ "=".toList ++ toStr value)
    else
      pure ("set ".toList ++ toStr data.option_name ++ "=".toList ++ toStr value)

/-- The callback-or-command field of the registration block, written twice
verbatim in `generateAutocmd` (with and without a group). -/
def autocmdAction (command : Val) : Except JSError Str := do
  let c ← receiver "command" "trim" command
  if startsWith (trim c) "lua ".toList then
    let luaCmd := substring 4 (trim c)
    pure ("  callback = function()\n".toList ++ "    ".toList ++ luaCmd ++ "\n".toList ++
      "  end,\n".toList)
  else
    let e ← escapeLua command
    pure ("  command = '".toList ++ e ++ "',\n".toList)

/-- Source `generateAutocmd`. -/
def generateAutocmd (data : Fields) (lang : Val) : Except JSError Str := do
  if lang = .str "lua".toList then
    if truthy data.group then
      let g := toStr data.group
      let p ← escapeLua data.pattern
      let action ← autocmdAction data.command
      pure ("-- Augroup: ".toList ++ g ++ "\n".toList ++
        "local ".toList ++ g ++ " = vim.api.nvim_create_augroup('".toList ++ g ++
          "', \x7b clear = true \x7d)\n".toList ++
        "vim.api.nvim_create_autocmd('".toList ++ toStr data.event ++ "', \x7b\n".toList ++
        "  group = ".toList ++ g ++ ",\n".toList ++
        "  pattern = '".toList ++ p ++ "',\n".toList ++
        action ++ "\x7d)".toList)
    else
      let p ← escapeLua data.pattern
      let action ← autocmdAction data.command
      pure ("vim.api.nvim_create_autocmd('".toList ++ toStr data.event ++ "', \x7b\n".toList ++
        "  pattern = '".toList ++ p ++ "',\n".toList ++
        action ++ "\x7d)".toList)
  else
    if truthy data.group then
      pure ("augroup ".toList ++ toStr data.group ++ "\n".toList ++
        "  autocmd!\n".toList ++
        "  autocmd ".toList ++ toStr data.event ++ " ".toList ++ toStr data.pattern ++
          " ".toList ++ toStr data.command ++ "\n".toList ++
        "augroup END".toList)
    else
      pure ("autocmd ".toList ++ toStr data.event ++ " ".toList ++ toStr data.pattern ++
        " ".toList ++ toStr data.command)

/-- The argument of `generateVimConfig`. -/
structure Request where
  configType : Val
  configLang : Val
  data : Fields

/-- The object `generateVimConfig` returns: `success` and `code` always,
`language` only on success, `error` only on failure. -/
structure Result where
  success : Bool
  code : Str
  language : Option Val
  error : Option Str
deriving DecidableEq

/-- The `switch` of `generateVimConfig`: the body of its `try` block. -/
def dispatch (req : Request) : Except JSError Str :=
  if req.configType = .str "Keymap".toList then generateKeymap req.data req.configLang
  else if req.configType = .str "Plugin".toList then generatePlugin req.data req.configLang
  else if req.configType = .str "Option".toList then generateOption req.data req.configLang
  else if req.configType = .str "Autocmd".toList then generateAutocmd req.data req.configLang
  else .error (.error ("Unsupported config type: ".toList ++ toStr req.configType))

/-- Source `generateVimConfig`: the `try`/`catch` around the dispatch. -/
def generateVimConfig (req : Request) : Result :=
  match dispatch req with
  | .ok generatedCode =>
    { success := true, code := generatedCode, language := some req.configLang, error := none }
  | .error e =>
    { success := false, code := [], language := none, error := some e.message }

/-! ## Specification-side definitions -/

/-- Every exception a computation can raise carries a non-empty message. -/
def ErrOk {α : Type} (x : Except JSError α) : Prop :=
  ∀ e, x = .error e → e.message ≠ []

/-- A generator run is well-formed: a returned text is non-empty and a raised
exception carries a non-empty message. -/
def Good (x : Except JSError Str) : Prop :=
  ErrOk x ∧ ∀ c, x = .ok c → c ≠ []

/-- The value coercion of the option generator in dialect `lua`, worded as
the four rules in priority order. -/
def coercedValue (v : Str) : Str :=
  if v = "true".toList ∨ v = "false".toList then v
  else if isNaN (.str v) = false ∧ trim v ≠ [] then v
  else if startsWith (trim v) "\x7b".toList ∨ startsWith (trim v) "[".toList then v
  else "'".toList ++ escapeLuaStr v ++ "'".toList

/-- A field holding a non-empty string. -/
def nonEmptyStr : Val → Bool
  | .str (_ :: _) => true
  | _ => false

/-- The minimally valid field sets: the fields the form marks as required are
non-empty strings (the plugin manager one of the four offered), and every
optional field of the category is absent. -/
def MinimallyValid (configType : Val) (data : Fields) : Prop :=
  (configType = .str "Keymap".toList ∧
    nonEmptyStr data.mode = true ∧ nonEmptyStr data.lhs = true ∧ nonEmptyStr data.rhs = true ∧
    data.description = .undefined ∧ data.noremap = .undefined ∧ data.buffer = .undefined ∧
    data.silent = .undefined ∧ data.expr = .undefined) ∨
  (configType = .str "Plugin".toList ∧
    nonEmptyStr data.plugin_name = true ∧
    (data.config_type = .str "lazy.nvim".toList ∨ data.config_type = .str "packer".toList ∨
      data.config_type = .str "vim-plug".toList ∨ data.config_type = .str "dein".toList) ∧
    data.dependencies = .undefined ∧ data.setup_config = .undefined ∧
    data.add_config = .undefined ∧ data.is_optional = .undefined) ∨
  (configType = .str "Option".toList ∧
    nonEmptyStr data.option_name = true ∧ nonEmptyStr data.option_value = true ∧
    data.scope = .undefined) ∨
  (configType = .str "Autocmd".toList ∧
    nonEmptyStr data.event = true ∧ nonEmptyStr data.pattern = true ∧
    nonEmptyStr data.command = true ∧ data.group = .undefined)


/-- The keymap of the worked example: mode `n`, lhs `<leader>ff`, rhs
`:Telescope find_files<CR>`, every modifier and the description absent. -/
def telescopeKeymap : Fields :=
  { mode := .str "n".toList, lhs := .str "<leader>ff".toList,
    rhs := .str ":Telescope find_files<CR>".toList }

/-- A keymap whose mode is the string `constructor`. -/
def constructorKeymap : Fields :=
  { mode := .str "constructor".toList, lhs := .str "a".toList, rhs := .str "b".toList }

/-- The worked example with a description and the `silent` modifier. -/
def findFilesKeymap : Fields :=
  { telescopeKeymap with description := .str "Find files".toList, silent := .bool true }

/-- Removal of a trailing suffix, when present. -/
def dropTrailing (suf s : Str) : Str :=
  if suf <:+ s then s.take (s.length - suf.length) else s

/-- Removal of a leading run of characters, when present. -/
def dropLeading (pre s : Str) : Str :=
  if pre <+: s then s.drop pre.length else s

/-- The module name as the specification words it: the last `/`-separated segment of
the plugin identifier with a trailing `.nvim` removed and a leading `nvim-`
removed, nothing else changed. -/
def specModuleName (p : Str) : Str :=
  dropLeading "nvim-".toList (dropTrailing ".nvim".toList ((split '/' p).getLastD []))

/-- A `lazy.nvim` plugin request with the config function, whose last segment
holds `nvim-` in the middle. -/
def cmpNvimLsp : Fields :=
  { plugin_name := .str "hrsh7th/cmp-nvim-lsp".toList, config_type := .str "lazy.nvim".toList,
    add_config := .bool true }

/-- The plugin of the worked example: `nvim-telescope/telescope.nvim` under
`lazy.nvim` with the config function, nothing else given. -/
def telescopePlugin : Fields :=
  { plugin_name := .str "nvim-telescope/telescope.nvim".toList,
    config_type := .str "lazy.nvim".toList, add_config := .bool true }

/-- Insertion of a line directly after the first line of a text (lines are
separated by line feeds). -/
def insertAfterFirstLine (line text : Str) : Str :=
  match split '\n' text with
  | [] => line
  | first :: rest => "\n".toList.intercalate (first :: line :: rest)

/-- An autocmd request whose event holds a line feed, with a group. -/
def twoLineEventAutocmd : Fields :=
  { event := .str "a\nb".toList, pattern := .str "*".toList, command := .str "x".toList,
    group := .str "G".toList }

/-- A grouped autocmd request with a `lua` command. -/
def formatAutocmd : Fields :=
  { event := .str "BufWritePre".toList, pattern := .str "*.lua".toList,
    command := .str "lua vim.lsp.buf.format()".toList, group := .str "Fmt".toList }

/-- A `lazy.nvim` plugin request with dependencies, the lazy flag and a setup
text. -/
def fullLazyPlugin : Fields :=
  { plugin_name := .str "nvim-telescope/telescope.nvim".toList,
    config_type := .str "lazy.nvim".toList, dependencies := .str " a/b , ,c".toList,
    setup_config := .str "x".toList, add_config := .bool true, is_optional := .bool true }

/-- The `packer` text the specification derives from a `lazy.nvim` text: the
opening `{` becomes `use {`, the field name `dependencies` becomes `requires`
and the field name `lazy` becomes `opt`, every other character kept. -/
def packerFromLazy (text : Str) : Str :=
  replace "lazy".toList "opt".toList
    (replace "dependencies".toList "requires".toList ("use ".toList ++ text))

/-- A plugin request with one dependency and nothing else. -/
def oneDependencyPlugin : Fields :=
  { plugin_name := .str "x/y".toList, dependencies := .str "a".toList }

/-- A `lazy.nvim` plugin request whose setup text has surrounding blanks. -/
def paddedSetupPlugin : Fields :=
  { plugin_name := .str "x/y".toList, config_type := .str "lazy.nvim".toList,
    setup_config := .str " \x7b x = 1 \x7d ".toList, add_config := .bool true }

/-- A `vim-plug` plugin request with two dependencies and the lazy flag. -/
def plugWithDeps : Fields :=
  { plugin_name := .str "x/y".toList, config_type := .str "vim-plug".toList,
    dependencies := .str "a/b, c/d".toList, is_optional := .bool true }

/-- Whether a field holds a string. -/
def Val.isStr : Val → Bool
  | .str _ => true
  | _ => false

/-- A request of a supported category that lacks a string field the `lua`
template escapes or inspects: the field is absent (or holds a boolean). -/
def LacksStringField (configType : Val) (data : Fields) : Prop :=
  (configType = .str "Keymap".toList ∧ (data.lhs.isStr = false ∨ data.rhs.isStr = false)) ∨
  (configType = .str "Option".toList ∧ data.option_value.isStr = false) ∨
  (configType = .str "Autocmd".toList ∧
    (data.pattern.isStr = false ∨ data.command.isStr = false)) ∨
  (configType = .str "Plugin".toList ∧
    (data.config_type = .str "lazy.nvim".toList ∨ data.config_type = .str "packer".toList) ∧
    data.plugin_name.isStr = false)

/-- A computation that raises an exception. -/
def Raises {α : Type} (x : Except JSError α) : Prop := ∃ e, x = .error e

/-- The escape of one character: a backslash, a single quote and a line feed
become the two-character escapes, every other character stays. -/
def escapeUnit (c : Char) : Str :=
  if c = '\\' then "\\\\".toList
  else if c = '\'' then "\\'".toList
  else if c = '\n' then "\\n".toList
  else [c]

/-- The units an escaped text is made of: one character other than backslash,
single quote and line feed, or one of the three two-character escapes. -/
def IsEscapeUnit (u : Str) : Prop :=
  (∃ c, u = [c] ∧ c ≠ '\\' ∧ c ≠ '\'' ∧ c ≠ '\n') ∨
  u = "\\\\".toList ∨ u = "\\'".toList ∨ u = "\\n".toList

/-- The length of the run of backslashes a text ends with. -/
def trailingBackslashes (a : Str) : Nat :=
  (a.reverse.takeWhile (fun c => c = '\\')).length

/-- Reading an escaped text back: a backslash and the character after it stand
for one character (`n` for a line feed, any other for itself). -/
def unescapeLua : Str → Str
  | [] => []
  | [c] => [c]
  | c :: d :: r =>
    if c = '\\' then (if d = 'n' then '\n' :: unescapeLua r else d :: unescapeLua r)
    else c :: unescapeLua (d :: r)

/-- A keymap whose rhs ends in a carriage return. -/
def crKeymap : Fields :=
  { mode := .str "n".toList, lhs := .str "<leader>e".toList, rhs := .str ":echo 1\r".toList }

/-- An autocmd whose command holds a carriage return between two commands. -/
def crAutocmd : Fields :=
  { event := .str "BufWritePre".toList, pattern := .str "*".toList,
    command := .str "echo 1\recho 2".toList }

/-! ## Theorems -/

theorem errOk_pure {α : Type} (a : α) : ErrOk (pure a : Except JSError α) := by
  intro e h; cases h

theorem errOk_receiver (name method : String) (v : Val) : ErrOk (receiver name method v) := by
  intro e h
  cases v <;> simp [receiver] at h <;> subst h <;> simp [JSError.message]

theorem errOk_bind {α β : Type} {x : Except JSError α} {f : α → Except JSError β}
    (hx : ErrOk x) (hf : ∀ a, ErrOk (f a)) : ErrOk (x >>= f) := by
  intro e h
  cases x with
  | error e0 =>
    have : e0 = e := by simpa [bind, Except.bind] using h
    exact this ▸ hx e0 rfl
  | ok a => exact hf a e (by simpa [bind, Except.bind] using h)

theorem good_bind {α : Type} {x : Except JSError α} {f : α → Except JSError Str}
    (hx : ErrOk x) (hf : ∀ a, Good (f a)) : Good (x >>= f) := by
  refine ⟨errOk_bind hx (fun a => (hf a).1), ?_⟩
  intro c h
  cases x with
  | error e0 => simp [bind, Except.bind] at h
  | ok a => exact (hf a).2 c (by simpa [bind, Except.bind] using h)

theorem good_pure {c : Str} (h : c ≠ []) : Good (pure c) := by
  refine ⟨errOk_pure c, ?_⟩
  intro c0 h0
  cases h0
  exact h

theorem errOk_escapeLua (v : Val) : ErrOk (escapeLua v) :=
  errOk_bind (errOk_receiver _ _ v) (fun _ => errOk_pure _)

theorem errOk_keymapOpts (data : Fields) : ErrOk (keymapOpts data) := by
  unfold keymapOpts
  refine errOk_bind ?_ (fun _ => errOk_pure _)
  split
  · exact errOk_bind (errOk_escapeLua _) (fun _ => errOk_pure _)
  · exact errOk_pure _

theorem good_generateKeymap (data : Fields) (lang : Val) : Good (generateKeymap data lang) := by
  unfold generateKeymap
  split
  · refine good_bind (errOk_keymapOpts data) (fun opts => ?_)
    refine good_bind (errOk_escapeLua _) (fun l => ?_)
    refine good_bind (errOk_escapeLua _) (fun r => ?_)
    exact good_pure (by simp)
  · exact good_pure (by simp)

theorem errOk_moduleName (v : Val) : ErrOk (moduleName v) :=
  errOk_bind (errOk_receiver _ _ v)
    (fun _ => errOk_bind (errOk_receiver _ _ _) (fun _ => errOk_pure _))

theorem errOk_configBlock (data : Fields) : ErrOk (configBlock data) := by
  unfold configBlock
  split
  · refine errOk_bind (errOk_moduleName _) (fun m => ?_)
    refine errOk_bind ?_ (fun _ => errOk_pure _)
    split
    · exact errOk_bind (errOk_receiver _ _ _) (fun _ => errOk_pure _)
    · exact errOk_pure _
  · exact errOk_pure _

theorem errOk_depsField (v : Val) (opener : Str) (items : List Str → Str) (closer : Str) :
    ErrOk (depsField v opener items closer) := by
  unfold depsField
  split
  · exact errOk_bind (errOk_receiver _ _ _) (fun _ => errOk_pure _)
  · exact errOk_pure _

theorem good_generatePlugin (data : Fields) (lang : Val) : Good (generatePlugin data lang) := by
  unfold generatePlugin
  split
  · split
    · refine good_bind (errOk_escapeLua _) (fun name => ?_)
      refine good_bind (errOk_depsField _ _ _ _) (fun deps => ?_)
      refine good_bind (errOk_configBlock _) (fun config => ?_)
      exact good_pure (by simp)
    · split
      · refine good_bind (errOk_escapeLua _) (fun name => ?_)
        refine good_bind (errOk_depsField _ _ _ _) (fun deps => ?_)
        refine good_bind (errOk_configBlock _) (fun config => ?_)
        exact good_pure (by simp)
      · exact good_pure (by simp)
  · split
    · refine good_bind ?_ (fun depLines => good_pure (by simp))
      split
      · exact errOk_bind (errOk_receiver _ _ _) (fun _ => errOk_pure _)
      · exact errOk_pure _
    · split
      · exact good_pure (by simp)
      · exact good_pure (by simp)

theorem errOk_parseLuaValue (value : Val) :
    ErrOk (parseLuaValue value) := by
  unfold parseLuaValue
  split
  · exact errOk_pure _
  · refine errOk_bind ?_ (fun numeric => ?_)
    · split
      · exact errOk_bind (errOk_receiver _ _ _) (fun _ => errOk_pure _)
      · exact errOk_pure _
    · split
      · exact errOk_pure _
      · refine errOk_bind (errOk_receiver _ _ _) (fun t => ?_)
        split
        · exact errOk_pure _
        · exact errOk_bind (errOk_escapeLua _) (fun _ => errOk_pure _)

theorem good_generateOption (data : Fields) (lang : Val) : Good (generateOption data lang) := by
  unfold generateOption
  dsimp only
  split
  · exact good_bind (errOk_parseLuaValue _) (fun value => good_pure (by simp))
  · split
    · exact good_pure (by simp)
    · split
      · exact good_pure (by simp)
      · split
        · exact good_pure (by simp)
        · exact good_pure (by simp)

theorem errOk_autocmdAction (v : Val) : ErrOk (autocmdAction v) := by
  unfold autocmdAction
  refine errOk_bind (errOk_receiver _ _ _) (fun c => ?_)
  split
  · exact errOk_pure _
  · exact errOk_bind (errOk_escapeLua _) (fun _ => errOk_pure _)

theorem good_generateAutocmd (data : Fields) (lang : Val) :
    Good (generateAutocmd data lang) := by
  unfold generateAutocmd
  split
  · split
    · refine good_bind (errOk_escapeLua _) (fun p => ?_)
      exact good_bind (errOk_autocmdAction _) (fun action => good_pure (by simp))
    · refine good_bind (errOk_escapeLua _) (fun p => ?_)
      exact good_bind (errOk_autocmdAction _) (fun action => good_pure (by simp))
  · split
    · exact good_pure (by simp)
    · exact good_pure (by simp)

theorem good_dispatch (req : Request) : Good (dispatch req) := by
  unfold dispatch
  split
  · exact good_generateKeymap _ _
  · split
    · exact good_generatePlugin _ _
    · split
      · exact good_generateOption _ _
      · split
        · exact good_generateAutocmd _ _
        · refine ⟨?_, fun c h => by cases h⟩
          intro e h
          cases h
          simp [JSError.message]

/-- C1: a request whose `configType` is none of the four supported category
strings yields the failure result: `success = false`, empty `code`, no
`language`, and the error message `Unsupported config type: ` followed by the
category as a template literal prints it (the string itself when it is a
string).  The function is total, so no exception escapes. -/
theorem generateVimConfig_unsupported (configType configLang : Val) (data : Fields)
    (hK : configType ≠ .str "Keymap".toList) (hP : configType ≠ .str "Plugin".toList)
    (hO : configType ≠ .str "Option".toList) (hA : configType ≠ .str "Autocmd".toList) :
    generateVimConfig ⟨configType, configLang, data⟩ =
      { success := false, code := [], language := none,
        error := some ("Unsupported config type: ".toList ++ toStr configType) } := by
  simp only [generateVimConfig, dispatch, if_neg hK, if_neg hP, if_neg hO, if_neg hA,
    JSError.message]

theorem generateVimConfig_unsupported_witness :
    generateVimConfig ⟨.str "Snippet".toList, .str "lua".toList, {}⟩ =
      { success := false, code := [], language := none,
        error := some "Unsupported config type: Snippet".toList } :=
  generateVimConfig_unsupported (.str "Snippet".toList) (.str "lua".toList) {}
    (by decide) (by decide) (by decide) (by decide)

/-- C2: every result populates exactly one of text and error message.  On
success the code is non-empty and no error is present; on failure the error
message is present and non-empty and the code is empty. -/
theorem generateVimConfig_exactly_one (req : Request) :
    ((generateVimConfig req).success = true →
        (generateVimConfig req).code ≠ [] ∧ (generateVimConfig req).error = none) ∧
    ((generateVimConfig req).success = false →
        (∃ m, (generateVimConfig req).error = some m ∧ m ≠ []) ∧
        (generateVimConfig req).code = []) := by
  have hg := good_dispatch req
  unfold generateVimConfig
  cases h : dispatch req with
  | ok c => exact ⟨fun _ => ⟨hg.2 c h, rfl⟩, fun hs => by simp at hs⟩
  | error e => exact ⟨fun hs => by simp at hs, fun _ => ⟨⟨e.message, rfl, hg.1 e h⟩, rfl⟩⟩

theorem escapeLua_str (s : Str) : escapeLua (.str s) = .ok (escapeLuaStr s) := rfl

theorem parseLuaValue_str (v : Str) : parseLuaValue (.str v) = .ok (coercedValue v) := by
  unfold parseLuaValue coercedValue
  by_cases h1 : v = "true".toList ∨ v = "false".toList
  · have h1v : Val.str v = .str "true".toList ∨ Val.str v = .str "false".toList := by
      rcases h1 with h | h
      · exact Or.inl (congrArg _ h)
      · exact Or.inr (congrArg _ h)
    rw [if_pos h1v, if_pos h1]
    rfl
  · have h1v : ¬ (Val.str v = .str "true".toList ∨ Val.str v = .str "false".toList) := by
      rintro (h | h)
      · exact h1 (Or.inl (Val.str.inj h))
      · exact h1 (Or.inr (Val.str.inj h))
    rw [if_neg h1v, if_neg h1]
    simp only [receiver, bind, Except.bind, pure, Except.pure, escapeLua, toStr]
    cases hn : isNaN (.str v) <;> by_cases ht : trim v = [] <;> simp [ht] <;>
      split_ifs <;> simp_all

theorem nonEmptyStr_eq {v : Val} (h : nonEmptyStr v = true) : ∃ s, v = .str s := by
  cases v with
  | str s => exact ⟨s, rfl⟩
  | undefined => simp [nonEmptyStr] at h
  | bool b => simp [nonEmptyStr] at h

theorem autocmdAction_str_ok (c : Str) : ∃ a, autocmdAction (.str c) = .ok a := by
  unfold autocmdAction
  by_cases h : startsWith (trim c) "lua ".toList = true
  · exact ⟨_, by simp only [receiver, bind, Except.bind, if_pos h]; rfl⟩
  · exact ⟨_, by simp only [receiver, bind, Except.bind, if_neg h, escapeLua]; rfl⟩

theorem dispatch_minimallyValid (configType lang : Val) (data : Fields)
    (hv : MinimallyValid configType data) :
    ∃ code, dispatch ⟨configType, lang, data⟩ = .ok code := by
  rcases hv with ⟨hc, hm, hl, hr, hd, hn, hb, hs, he⟩ | ⟨hc, hp, hm, hd, hs, ha, ho⟩ |
    ⟨hc, hn, hv, hs⟩ | ⟨hc, he, hp, hcm, hg⟩
  · obtain ⟨l, hl⟩ := nonEmptyStr_eq hl
    obtain ⟨r, hr⟩ := nonEmptyStr_eq hr
    subst hc
    by_cases hlang : lang = .str "lua".toList
    · simp [dispatch, generateKeymap, keymapOpts, hlang, hl, hr, hd, truthy, escapeLua,
        receiver, bind, Except.bind, pure, Except.pure]
    · have : ¬ lang = Val.str ['l', 'u', 'a'] := by simpa using hlang
      simp [dispatch, generateKeymap, this, pure, Except.pure]
  · obtain ⟨p, hp⟩ := nonEmptyStr_eq hp
    subst hc
    by_cases hlang : lang = .str "lua".toList
    · rcases hm with hm | hm | hm | hm <;>
        simp [dispatch, generatePlugin, depsField, configBlock, hlang, hp, hm, hd, hs, ha, ho,
          truthy, escapeLua, receiver, bind, Except.bind, pure, Except.pure]
    · have : ¬ lang = Val.str ['l', 'u', 'a'] := by simpa using hlang
      rcases hm with hm | hm | hm | hm <;>
        simp [dispatch, generatePlugin, this, hp, hm, hd, hs, ha, ho,
          truthy, pure, Except.pure, bind, Except.bind]
  · obtain ⟨v, hv⟩ := nonEmptyStr_eq hv
    subst hc
    by_cases hlang : lang = .str "lua".toList
    · simp [dispatch, generateOption, hlang, hv, parseLuaValue_str, bind, Except.bind, pure,
        Except.pure]
    · have : ¬ lang = Val.str ['l', 'u', 'a'] := by simpa using hlang
      simp only [dispatch, generateOption]
      simp [this, pure, Except.pure]
      split_ifs <;> simp
  · obtain ⟨p, hp⟩ := nonEmptyStr_eq hp
    obtain ⟨c, hcm⟩ := nonEmptyStr_eq hcm
    obtain ⟨a, ha⟩ := autocmdAction_str_ok c
    subst hc
    by_cases hlang : lang = .str "lua".toList
    · simp [dispatch, generateAutocmd, hlang, hg, hp, hcm, ha, escapeLua_str, truthy, bind,
        Except.bind, pure, Except.pure]
    · have : ¬ lang = Val.str ['l', 'u', 'a'] := by simpa using hlang
      simp [dispatch, generateAutocmd, this, hg, truthy, pure, Except.pure]

/-- C3: for each of the four categories and both dialects, a minimally valid
fields record yields `success = true` with a non-empty code string (and the
dialect echoed in `language`, no error). -/
theorem generateVimConfig_minimally_valid (configType lang : Val) (data : Fields)
    (hv : MinimallyValid configType data) :
    ∃ code, code ≠ [] ∧
      generateVimConfig ⟨configType, lang, data⟩ =
        { success := true, code := code, language := some lang, error := none } := by
  obtain ⟨code, hcode⟩ := dispatch_minimallyValid configType lang data hv
  refine ⟨code, (good_dispatch _).2 code hcode, ?_⟩
  simp only [generateVimConfig, hcode]

theorem generateVimConfig_minimally_valid_witness :
    ∃ code, code ≠ [] ∧
      generateVimConfig
          ⟨.str "Autocmd".toList, .str "vimscript".toList,
            { event := .str "BufWritePre".toList, pattern := .str "*".toList,
              command := .str "retab".toList }⟩ =
        { success := true, code := code, language := some (.str "vimscript".toList),
          error := none } :=
  generateVimConfig_minimally_valid (.str "Autocmd".toList) (.str "vimscript".toList)
    { event := .str "BufWritePre".toList, pattern := .str "*".toList,
      command := .str "retab".toList }
    (Or.inr (Or.inr (Or.inr ⟨rfl, rfl, rfl, rfl, rfl⟩)))

theorem trim_eq_nil_of_all {v : Str} (h : ∀ c ∈ v, isStrWhiteSpaceChar c = true) :
    trim v = [] := by
  have : v.dropWhile isStrWhiteSpaceChar = [] := List.dropWhile_eq_nil_iff.mpr h
  simp [trim, this]

theorem coercedValue_of_whitespace {v : Str} (h : ∀ c ∈ v, isStrWhiteSpaceChar c = true) :
    coercedValue v = "'".toList ++ escapeLuaStr v ++ "'".toList := by
  have ht := trim_eq_nil_of_all h
  have h1 : ¬ (v = "true".toList ∨ v = "false".toList) := by
    rintro (rfl | rfl)
    · exact absurd (h 't' (by decide)) (by decide)
    · exact absurd (h 'f' (by decide)) (by decide)
  have h3 : ¬ (startsWith [] "\x7b".toList = true ∨ startsWith [] "[".toList = true) := by decide
  unfold coercedValue
  rw [if_neg h1, if_neg (by simp [ht]), ht, if_neg h3]

/-- C4: the option generator in dialect `lua` returns exactly
`vim.<scope>.<name> = <c>`, the scope being `opt` when the field is absent,
where `c` follows the four coercion rules in priority order (`coercedValue`):
`true`/`false` unchanged, numeric non-blank strings unchanged, strings whose
trimmed form starts with `{` or `[` unchanged, anything else escaped and
single-quoted.  In particular `4` stays unquoted, `hello` is quoted, and an
empty or whitespace-only value is quoted. -/
theorem generateOption_lua (data : Fields) (n v s : Str)
    (hn : data.option_name = .str n) (hv : data.option_value = .str v)
    (hs : (data.scope = .undefined ∧ s = "opt".toList) ∨ data.scope = .str s) :
    generateOption data (.str "lua".toList) =
        .ok ("vim.".toList ++ s ++ ".".toList ++ n ++ " = ".toList ++ coercedValue v) ∧
      coercedValue "true".toList = "true".toList ∧
      coercedValue "false".toList = "false".toList ∧
      coercedValue "4".toList = "4".toList ∧
      coercedValue "hello".toList = "'hello'".toList ∧
      coercedValue [] = "''".toList ∧
      ((∀ c ∈ v, isStrWhiteSpaceChar c = true) →
        coercedValue v = "'".toList ++ escapeLuaStr v ++ "'".toList) := by
  refine ⟨?_, by decide, by decide, by decide, by decide, by decide,
    coercedValue_of_whitespace⟩
  unfold generateOption
  rcases hs with ⟨hs, rfl⟩ | hs
  · simp only [hs, hn, hv, parseLuaValue_str, if_true, bind, Except.bind, pure, Except.pure,
      toStr]
  · have : ¬ (Val.str s = Val.undefined) := by simp
    simp only [hs, hn, hv, parseLuaValue_str, this, if_false, if_true, bind, Except.bind, pure,
      Except.pure, toStr]

theorem generateOption_lua_witness :
    generateOption { option_name := .str "tabstop".toList, option_value := .str "4".toList }
        (.str "lua".toList) = .ok "vim.opt.tabstop = 4".toList :=
  (generateOption_lua { option_name := .str "tabstop".toList, option_value := .str "4".toList }
    "tabstop".toList "4".toList "opt".toList rfl rfl (Or.inl ⟨rfl, rfl⟩)).1.trans
    (congrArg Except.ok (by decide))

/-- C5: in every dialect other than `lua` the option generator returns
`set <name>` for the value `true`, `set no<name>` for `false`, and
`set <name>=<value>` for every other string value, the value unchanged;
the `scope` field plays no part. -/
theorem generateOption_vimscript (data : Fields) (lang : Val) (n v : Str)
    (hlang : lang ≠ .str "lua".toList)
    (hn : data.option_name = .str n) (hv : data.option_value = .str v) :
    generateOption data lang =
      .ok (if v = "true".toList then "set ".toList ++ n
        else if v = "false".toList then "set no".toList ++ n
        else "set ".toList ++ n ++ "=".toList ++ v) := by
  unfold generateOption
  simp only [if_neg hlang, hn, hv, toStr, pure, Except.pure]
  by_cases h1 : v = "true".toList
  · subst h1; rfl
  · have h1v : ¬ (Val.str v = .str "true".toList) := fun h => h1 (Val.str.inj h)
    rw [if_neg h1v, if_neg h1]
    by_cases h2 : v = "false".toList
    · subst h2; rfl
    · have h2v : ¬ (Val.str v = .str "false".toList) := fun h => h2 (Val.str.inj h)
      rw [if_neg h2v, if_neg h2]
      split <;> rfl

theorem generateOption_vimscript_witness :
    generateOption
        { option_name := .str "number".toList, option_value := .str "false".toList,
          scope := .str "wo".toList }
        (.str "vimscript".toList) = .ok "set nonumber".toList :=
  (generateOption_vimscript _ (.str "vimscript".toList) "number".toList "false".toList
    (by decide) rfl rfl).trans (congrArg Except.ok (by decide))

set_option maxRecDepth 100000 in
/-- C6, counterexample: for the worked example with no modifiers the dialect
`lua` output does not contain the call with the empty options table `{}`. -/
theorem keymap_example_lua_lacks_empty_table :
    ¬ ∃ code, generateKeymap telescopeKeymap (.str "lua".toList) = .ok code ∧
      "vim.keymap.set('n', '<leader>ff', ':Telescope find_files<CR>', \x7b\x7d)".toList <:+: code := by
  rintro ⟨code, h, hin⟩
  have h2 : generateKeymap telescopeKeymap (.str "lua".toList) = .ok
      "vim.keymap.set('n', '<leader>ff', ':Telescope find_files<CR>', \x7b noremap = true \x7d)".toList :=
    rfl
  rw [h2] at h
  cases h
  revert hin
  decide

/-- C6, amended: for the worked example with no modifiers the dialect `lua`
output is exactly the call whose options table is `{ noremap = true }`, the
default of the non-recursive choice; the options table is the empty `{}` when
`noremap` is explicitly false. -/
theorem keymap_example_lua :
    generateKeymap telescopeKeymap (.str "lua".toList) = .ok
      "vim.keymap.set('n', '<leader>ff', ':Telescope find_files<CR>', \x7b noremap = true \x7d)".toList ∧
    generateKeymap { telescopeKeymap with noremap := .bool false } (.str "lua".toList) = .ok
      "vim.keymap.set('n', '<leader>ff', ':Telescope find_files<CR>', \x7b\x7d)".toList :=
  ⟨rfl, rfl⟩

/-- In every dialect other than `lua` the keymap generator returns the comment
line (when the description is truthy), the command token, the modifier
annotations in the order silent, buffer, expr, then lhs and rhs. -/
theorem generateKeymap_vimscript (data : Fields) (lang : Val)
    (hlang : lang ≠ .str "lua".toList) :
    generateKeymap data lang = .ok
      ((if truthy data.description then "\" ".toList ++ toStr data.description ++ "\n".toList
        else []) ++
       modePrefix data.mode ++
       (if data.noremap ≠ .bool false then "noremap".toList else "map".toList) ++
       (if truthy data.silent then " <silent>".toList else []) ++
       (if truthy data.buffer then " <buffer>".toList else []) ++
       (if truthy data.expr then " <expr>".toList else []) ++
       " ".toList ++ toStr data.lhs ++ " ".toList ++ toStr data.rhs) := by
  unfold generateKeymap keymapCmd
  rw [if_neg hlang]
  simp only [pure, Except.pure]
  congr 1
  split_ifs <;> simp only [List.append_assoc, List.append_nil, List.nil_append]

/-- C7, the failing input: with the mode `constructor`, a key the object
literal `modeMap` inherits, the command token starts with the text of the
inherited function, not with the empty string the specification gives for a mode
outside `n, i, v, x, t, c`. -/
theorem generateKeymap_vimscript_inherited_mode :
    generateKeymap constructorKeymap (.str "vimscript".toList) =
      .ok "function Object() \x7b [native code] \x7dnoremap a b".toList ∧
    "function Object() \x7b [native code] \x7dnoremap a b".toList ≠ "noremap a b".toList :=
  ⟨rfl, by decide⟩

theorem lookup_mem_snd {k : Str} {l : List (Str × Str)} {v : Str}
    (h : l.lookup k = some v) : v ∈ l.map Prod.snd := by
  induction l with
  | nil => simp [List.lookup] at h
  | cons a l ih =>
    obtain ⟨a1, a2⟩ := a
    simp only [List.lookup] at h
    split at h
    · simp only [Option.some.injEq] at h
      simp [h]
    · simp [ih h]

theorem modePrefix_mem (mode : Val) :
    modePrefix mode ∈ [] :: (modeMap.map Prod.snd ++ objectPrototype.map Prod.snd) := by
  unfold modePrefix
  split
  · next p h => exact List.mem_cons_of_mem _ (List.mem_append_left _ (lookup_mem_snd h))
  · split
    · next t h => exact List.mem_cons_of_mem _ (List.mem_append_right _ (lookup_mem_snd h))
    · exact List.mem_cons_self _ _

theorem keymapOpts_of_description (data : Fields) (d : Str)
    (hd : (data.description = .undefined ∧ d = []) ∨ data.description = .str d) :
    keymapOpts data = .ok
      ((if d ≠ [] then ["desc = '".toList ++ escapeLuaStr d ++ "'".toList] else []) ++
       (if data.noremap ≠ .bool false then ["noremap = true".toList] else []) ++
       (if truthy data.buffer then ["buffer = true".toList] else []) ++
       (if truthy data.silent then ["silent = true".toList] else []) ++
       (if truthy data.expr then ["expr = true".toList] else [])) := by
  unfold keymapOpts
  rcases hd with ⟨hd, rfl⟩ | hd
  · simp only [hd, truthy, Bool.false_eq_true, if_false, bind, Except.bind, ne_eq,
      not_true_eq_false]
    rfl
  · cases d with
    | nil =>
      simp only [hd, truthy, List.isEmpty, Bool.not_true, Bool.false_eq_true, if_false, bind,
        Except.bind, ne_eq, not_true_eq_false]
      rfl
    | cons c d =>
      simp only [hd, truthy, List.isEmpty, Bool.not_false, if_true, bind, Except.bind, ne_eq,
        escapeLua_str, reduceCtorEq, not_false_eq_true]
      rfl

set_option maxRecDepth 100000 in
theorem map_token_not_noremap :
    ∀ p ∈ [] :: (modeMap.map Prod.snd ++ objectPrototype.map Prod.snd),
      ¬ ("noremap".toList <:+ p ++ "map".toList) := by
  decide

theorem join_eq_intercalate (sep : Str) (l : List Str) : join sep l = sep.intercalate l := by
  induction l with
  | nil => rfl
  | cons p l ih =>
    cases l with
    | nil => simp [join, List.intercalate]
    | cons q ps =>
      rw [join, ih]
      simp [List.intercalate, List.intersperse]

/-- In dialect `lua`, once the options array is built and lhs and rhs are
strings, the keymap generator returns the comment line, then the call with the
quoted mode, the escaped lhs and rhs and the options joined between braces. -/
theorem generateKeymap_lua_of_opts (data : Fields) (opts : List Str) (l r : Str)
    (ho : keymapOpts data = .ok opts) (hl : data.lhs = .str l) (hr : data.rhs = .str r) :
    generateKeymap data (.str "lua".toList) = .ok
      ((if truthy data.description then "-- ".toList ++ toStr data.description ++ "\n".toList
        else []) ++
       "vim.keymap.set(".toList ++
       (if truthy data.mode then "'".toList ++ toStr data.mode ++ "'".toList
        else "''".toList) ++
       ", '".toList ++ escapeLuaStr l ++ "', '".toList ++ escapeLuaStr r ++ "', ".toList ++
       (if opts = [] then "\x7b\x7d".toList
        else "\x7b ".toList ++ ", ".toList.intercalate opts ++ " \x7d".toList) ++
       ")".toList) := by
  unfold generateKeymap
  rw [if_pos rfl, ho]
  simp only [bind, Except.bind, hl, hr, escapeLua_str, pure, Except.pure, join_eq_intercalate]
  congr 1
  cases opts <;> simp

/-- C8: the two dialects agree on the non-recursive choice, in what the keymap
generator returns.  Whenever the options array of dialect `lua` is built (the
description is not the boolean `true`), there is an array `opts` such that:
for string lhs and rhs the generator in dialect `lua` returns the call
`vim.keymap.set(...)` whose last argument is `opts` joined by `, ` between
braces; in every other dialect it returns the comment line, the command token
`keymapCmd data`, the modifier annotations, lhs and rhs; `opts` contains
`noremap = true` exactly when that command token ends in `noremap`; and that
is exactly when the `noremap` field is not the boolean `false`: for a field
that is absent or a boolean, exactly when it is absent or `true`. -/
theorem keymap_noremap_agreement (data : Fields) (hdesc : data.description ≠ .bool true) :
    ∃ opts, keymapOpts data = .ok opts ∧
      (∀ l r, data.lhs = .str l → data.rhs = .str r →
        generateKeymap data (.str "lua".toList) = .ok
          ((if truthy data.description then
              "-- ".toList ++ toStr data.description ++ "\n".toList
            else []) ++
           "vim.keymap.set(".toList ++
           (if truthy data.mode then "'".toList ++ toStr data.mode ++ "'".toList
            else "''".toList) ++
           ", '".toList ++ escapeLuaStr l ++ "', '".toList ++ escapeLuaStr r ++
           "', ".toList ++
           (if opts = [] then "\x7b\x7d".toList
            else "\x7b ".toList ++ ", ".toList.intercalate opts ++ " \x7d".toList) ++
           ")".toList)) ∧
      (∀ lang, lang ≠ .str "lua".toList →
        generateKeymap data lang = .ok
          ((if truthy data.description then
              "\" ".toList ++ toStr data.description ++ "\n".toList
            else []) ++
           keymapCmd data ++
           (if truthy data.silent then " <silent>".toList else []) ++
           (if truthy data.buffer then " <buffer>".toList else []) ++
           (if truthy data.expr then " <expr>".toList else []) ++
           " ".toList ++ toStr data.lhs ++ " ".toList ++ toStr data.rhs)) ∧
      ("noremap = true".toList ∈ opts ↔ "noremap".toList <:+ keymapCmd data) ∧
      ("noremap".toList <:+ keymapCmd data ↔ data.noremap ≠ .bool false) ∧
      ((data.noremap = .undefined ∨ ∃ b, data.noremap = .bool b) →
        ("noremap".toList <:+ keymapCmd data ↔
          data.noremap = .undefined ∨ data.noremap = .bool true)) := by
  have hcmd : "noremap".toList <:+ keymapCmd data ↔ data.noremap ≠ .bool false := by
    unfold keymapCmd
    by_cases h : data.noremap = .bool false
    · simp only [h, ne_eq, not_true_eq_false, if_false, iff_false]
      exact map_token_not_noremap _ (modePrefix_mem _)
    · simp only [ne_eq, h, not_false_eq_true, if_true, iff_true]
      exact List.suffix_append _ _
  have hb : "noremap = true".toList ∉
      (if truthy data.buffer then ["buffer = true".toList] else []) := by
    split <;> simp
  have hs : "noremap = true".toList ∉
      (if truthy data.silent then ["silent = true".toList] else []) := by
    split <;> simp
  have he : "noremap = true".toList ∉
      (if truthy data.expr then ["expr = true".toList] else []) := by
    split <;> simp
  have hn : "noremap = true".toList ∈
      (if data.noremap ≠ .bool false then ["noremap = true".toList] else []) ↔
      data.noremap ≠ .bool false := by
    split <;> simp_all
  have hopts : ∃ opts, keymapOpts data = .ok opts ∧
      ("noremap = true".toList ∈ opts ↔ data.noremap ≠ .bool false) := by
    have key : ∀ desc : List Str, "noremap = true".toList ∉ desc →
        ("noremap = true".toList ∈ desc ++
          (if data.noremap ≠ .bool false then ["noremap = true".toList] else []) ++
          (if truthy data.buffer then ["buffer = true".toList] else []) ++
          (if truthy data.silent then ["silent = true".toList] else []) ++
          (if truthy data.expr then ["expr = true".toList] else []) ↔
        data.noremap ≠ .bool false) := by
      intro desc hdm
      simp only [List.mem_append, hdm, hb, hs, he, hn, false_or, or_false]
    cases hd : data.description with
    | undefined =>
      exact ⟨_, keymapOpts_of_description data [] (Or.inl ⟨hd, rfl⟩), key _ (by simp)⟩
    | bool b =>
      cases b with
      | true => exact absurd hd hdesc
      | false =>
        refine ⟨_, ?_, key [] (by simp)⟩
        simp only [keymapOpts, hd, truthy, Bool.false_eq_true, if_false, bind, Except.bind]
        rfl
    | str d =>
      refine ⟨_, keymapOpts_of_description data d (Or.inr hd), key _ ?_⟩
      split <;> simp
  obtain ⟨opts, ho, hmem⟩ := hopts
  refine ⟨opts, ho, ?_, ?_, hmem.trans hcmd.symm, hcmd, ?_⟩
  · intro l r hl hr
    exact generateKeymap_lua_of_opts data opts l r ho hl hr
  · intro lang hlang
    rw [generateKeymap_vimscript data lang hlang]
    unfold keymapCmd
    simp only [List.append_assoc]
  · rintro (h | ⟨b, h⟩)
    · rw [hcmd]; simp [h]
    · rw [hcmd]; cases b <;> simp [h]

theorem keymap_noremap_agreement_witness :
    ∃ opts, keymapOpts telescopeKeymap = .ok opts ∧
      generateKeymap telescopeKeymap (.str "lua".toList) = .ok
        ("vim.keymap.set('n', '<leader>ff', ':Telescope find_files<CR>', ".toList ++
          (if opts = [] then "\x7b\x7d".toList
           else "\x7b ".toList ++ ", ".toList.intercalate opts ++ " \x7d".toList) ++
          ")".toList) ∧
      generateKeymap telescopeKeymap (.str "vimscript".toList) = .ok
        (keymapCmd telescopeKeymap ++ " <leader>ff :Telescope find_files<CR>".toList) ∧
      ("noremap = true".toList ∈ opts ↔ "noremap".toList <:+ keymapCmd telescopeKeymap) ∧
      ("noremap".toList <:+ keymapCmd telescopeKeymap ↔
        telescopeKeymap.noremap ≠ .bool false) ∧
      ((telescopeKeymap.noremap = .undefined ∨ ∃ b, telescopeKeymap.noremap = .bool b) →
        ("noremap".toList <:+ keymapCmd telescopeKeymap ↔
          telescopeKeymap.noremap = .undefined ∨ telescopeKeymap.noremap = .bool true)) := by
  obtain ⟨opts, ho, hlua, hvim, h⟩ := keymap_noremap_agreement telescopeKeymap (by decide)
  refine ⟨opts, ho, ?_, ?_, h⟩
  · exact (hlua _ _ rfl rfl).trans (by simp [telescopeKeymap, truthy, toStr, escapeLuaStr, replaceAll])
  · exact (hvim _ (by decide)).trans (by simp [telescopeKeymap, truthy, toStr])

theorem truthy_of_description {v : Val} {d : Str}
    (hd : (v = .undefined ∧ d = []) ∨ v = .str d) :
    (truthy v = true ↔ d ≠ []) ∧ (d ≠ [] → toStr v = d) := by
  rcases hd with ⟨rfl, rfl⟩ | rfl
  · simp [truthy]
  · cases d <;> simp [truthy, toStr]

theorem keymap_call_assoc (comment m l r : Str) (opts : List Str) :
    comment ++ "vim.keymap.set(".toList ++ ("'".toList ++ m ++ "'".toList) ++ ", '".toList ++ l ++
        "', '".toList ++ r ++ "', ".toList ++
        (if opts.length > 0 then "\x7b ".toList ++ ", ".toList.intercalate opts ++ " \x7d".toList
          else "\x7b\x7d".toList) ++ ")".toList =
      comment ++ "vim.keymap.set('".toList ++ m ++ "', '".toList ++ l ++
        "', '".toList ++ r ++ "', ".toList ++
        (if opts = [] then "\x7b\x7d".toList
          else "\x7b ".toList ++ ", ".toList.intercalate opts ++ " \x7d".toList) ++ ")".toList := by
  cases opts <;> simp

/-- C9: for string lhs and rhs (mode and description each a string or absent,
an absent one read as empty) the keymap generator in dialect `lua` returns
exactly the comment line `-- <description>` when the description is non-empty,
followed by the call `vim.keymap.set('<mode>', '<lhs>', '<rhs>', O)` with lhs
and rhs escaped, where `O` is `{}` when no option applies and otherwise the
applicable options joined by `, ` between `{ ` and ` }`: `desc`, `noremap`,
`buffer`, `silent`, `expr`, in this order.  A modifier that is false or absent
is not among the options. -/
theorem generateKeymap_lua (data : Fields) (l r m d : Str)
    (hl : data.lhs = .str l) (hr : data.rhs = .str r)
    (hm : (data.mode = .undefined ∧ m = []) ∨ data.mode = .str m)
    (hd : (data.description = .undefined ∧ d = []) ∨ data.description = .str d) :
    ∃ opts : List Str,
      opts =
        (if d ≠ [] then ["desc = '".toList ++ escapeLuaStr d ++ "'".toList] else []) ++
        (if data.noremap ≠ .bool false then ["noremap = true".toList] else []) ++
        (if truthy data.buffer then ["buffer = true".toList] else []) ++
        (if truthy data.silent then ["silent = true".toList] else []) ++
        (if truthy data.expr then ["expr = true".toList] else []) ∧
      generateKeymap data (.str "lua".toList) = .ok
        ((if d ≠ [] then "-- ".toList ++ d ++ "\n".toList else []) ++
          "vim.keymap.set('".toList ++ m ++ "', '".toList ++ escapeLuaStr l ++
          "', '".toList ++ escapeLuaStr r ++ "', ".toList ++
          (if opts = [] then "\x7b\x7d".toList
            else "\x7b ".toList ++ ", ".toList.intercalate opts ++ " \x7d".toList) ++
          ")".toList) ∧
      (data.noremap = .bool false → "noremap = true".toList ∉ opts) ∧
      (data.buffer = .undefined ∨ data.buffer = .bool false →
        "buffer = true".toList ∉ opts) ∧
      (data.silent = .undefined ∨ data.silent = .bool false →
        "silent = true".toList ∉ opts) ∧
      (data.expr = .undefined ∨ data.expr = .bool false → "expr = true".toList ∉ opts) := by
  refine ⟨_, rfl, ?_, ?_, ?_, ?_, ?_⟩
  · obtain ⟨htd, hsd⟩ := truthy_of_description hd
    obtain ⟨htm, hsm⟩ := truthy_of_description hm
    unfold generateKeymap
    rw [if_pos rfl, keymapOpts_of_description data d hd]
    simp only [bind, Except.bind, hl, hr, escapeLua_str, pure, Except.pure, join_eq_intercalate]
    congr 1
    have hmode : (if truthy data.mode = true then "'".toList ++ toStr data.mode ++ "'".toList
        else "''".toList) = "'".toList ++ m ++ "'".toList := by
      by_cases h : m = []
      · have : ¬ (truthy data.mode = true) := fun ht => (htm.mp ht) h
        rw [if_neg this, h]; rfl
      · rw [if_pos (htm.mpr h), hsm h]
    have hcom : (if truthy data.description = true then
          "-- ".toList ++ toStr data.description ++ "\n".toList else []) =
        (if d ≠ [] then "-- ".toList ++ d ++ "\n".toList else []) := by
      by_cases h : d = []
      · have : ¬ (truthy data.description = true) := fun ht => (htd.mp ht) h
        rw [if_neg this, if_neg (by simpa using h)]
      · rw [if_pos (htd.mpr h), if_pos h, hsd h]
    rw [hmode, hcom]
    exact keymap_call_assoc _ _ _ _ _
  · intro h
    simp only [List.mem_append, not_or]
    refine ⟨⟨⟨⟨?_, ?_⟩, ?_⟩, ?_⟩, ?_⟩
    · split <;> simp
    · simp [h]
    · split <;> simp
    · split <;> simp
    · split <;> simp
  · intro h
    have hf : truthy data.buffer = false := by rcases h with h | h <;> simp [h, truthy]
    simp only [List.mem_append, not_or]
    refine ⟨⟨⟨⟨?_, ?_⟩, ?_⟩, ?_⟩, ?_⟩
    · split <;> simp
    · split <;> simp
    · simp [hf]
    · split <;> simp
    · split <;> simp
  · intro h
    have hf : truthy data.silent = false := by rcases h with h | h <;> simp [h, truthy]
    simp only [List.mem_append, not_or]
    refine ⟨⟨⟨⟨?_, ?_⟩, ?_⟩, ?_⟩, ?_⟩
    · split <;> simp
    · split <;> simp
    · split <;> simp
    · simp [hf]
    · split <;> simp
  · intro h
    have hf : truthy data.expr = false := by rcases h with h | h <;> simp [h, truthy]
    simp only [List.mem_append, not_or]
    refine ⟨⟨⟨⟨?_, ?_⟩, ?_⟩, ?_⟩, ?_⟩
    · split <;> simp
    · split <;> simp
    · split <;> simp
    · split <;> simp
    · simp [hf]

theorem generateKeymap_lua_witness :
    ∃ opts : List Str,
      opts = ["desc = 'Find files'".toList, "noremap = true".toList, "silent = true".toList] ∧
      generateKeymap findFilesKeymap (.str "lua".toList) = .ok
        ("-- Find files\nvim.keymap.set('n', '<leader>ff', ':Telescope find_files<CR>', ".toList ++
          "\x7b desc = 'Find files', noremap = true, silent = true \x7d)".toList) :=
  match generateKeymap_lua findFilesKeymap "<leader>ff".toList
      ":Telescope find_files<CR>".toList "n".toList "Find files".toList rfl rfl
      (Or.inr rfl) (Or.inr rfl) with
  | ⟨opts, ho, hg, _⟩ => ⟨opts, ho.trans (by decide), hg.trans (by subst ho; rfl)⟩

theorem startsWith_iff (s p : Str) : startsWith s p = true ↔ p <+: s := by
  unfold startsWith
  rw [decide_eq_true_iff, List.prefix_iff_eq_take]
  exact eq_comm

theorem replace_of_not_infix (pat rep s : Str) (h : ¬ pat <:+: s) : replace pat rep s = s := by
  induction s with
  | nil =>
    have : pat ≠ [] := by
      rintro rfl
      exact h List.nil_infix
    simp [replace, this]
  | cons c cs ih =>
    have h1 : ¬ (startsWith (c :: cs) pat = true) := by
      rw [startsWith_iff]
      exact fun hp => h hp.isInfix
    have h2 : ¬ pat <:+: cs := fun hi => h (hi.trans (List.suffix_cons c cs).isInfix)
    rw [replace, if_neg h1, ih h2]

theorem replace_first_occurrence (pat rep a b : Str)
    (h : ¬ pat <:+: a ++ pat.dropLast) : replace pat rep (a ++ pat ++ b) = a ++ rep ++ b := by
  induction a with
  | nil =>
    cases hb : ([] ++ pat ++ b : Str) with
    | nil =>
      have hp : pat = [] := by
        simp only [List.nil_append, List.append_eq_nil] at hb
        exact hb.1
      have hb' : b = [] := by
        simp only [List.nil_append, List.append_eq_nil] at hb
        exact hb.2
      simp [replace, hp, hb']
    | cons c cs =>
      have h1 : startsWith (c :: cs) pat = true := by
        rw [startsWith_iff, ← hb]
        simp
      rw [replace, if_pos h1, ← hb]
      simp
  | cons x a ih =>
    have hne : pat ≠ [] := by
      rintro rfl
      exact h List.nil_infix
    have h1 : ¬ (startsWith (x :: (a ++ pat ++ b)) pat = true) := by
      rw [startsWith_iff]
      intro hp
      apply h
      have hsplit : x :: (a ++ pat ++ b) =
          (x :: a ++ pat.dropLast) ++ ([pat.getLast hne] ++ b) := by
        conv_lhs => rw [← List.dropLast_append_getLast hne]
        simp
      rw [hsplit] at hp
      have hlen : pat.length ≤ (x :: a ++ pat.dropLast).length := by
        simp only [List.cons_append, List.length_cons, List.length_append, List.length_dropLast]
        have := List.length_pos_of_ne_nil hne
        omega
      exact (List.prefix_of_prefix_length_le hp (List.prefix_append _ _) hlen).isInfix
    have h2 : ¬ pat <:+: a ++ pat.dropLast :=
      fun hi => h (hi.trans (List.suffix_cons x _).isInfix)
    have : (x :: a ++ pat ++ b : Str) = x :: (a ++ pat ++ b) := by simp
    rw [this, replace, if_neg h1, ih h2]
    simp

theorem pop_split (sep : Char) (p : Str) :
    ∃ seg, pop (split sep p) = .str seg ∧ sep ∉ seg ∧
      ((split sep p = [seg] ∧ p = seg) ∨
        (2 ≤ (split sep p).length ∧ ∃ q, p = q ++ sep :: seg)) := by
  induction p with
  | nil => exact ⟨[], rfl, by simp, Or.inl ⟨rfl, rfl⟩⟩
  | cons c cs ih =>
    obtain ⟨seg, hpop, hsep, hcs⟩ := ih
    by_cases hc : c = sep
    · subst hc
      refine ⟨seg, ?_, hsep, Or.inr ?_⟩
      · rw [split, if_pos rfl]
        rcases hcs with ⟨h1, _⟩ | ⟨h2, _⟩
        · rw [h1]; rfl
        · cases hs : split c cs with
          | nil => rw [hs] at h2; simp at h2
          | cons a as =>
            rw [hs] at hpop
            simpa [pop] using hpop
      · rw [split, if_pos rfl]
        refine ⟨?_, ?_⟩
        · rcases hcs with ⟨h1, _⟩ | ⟨h2, _⟩
          · rw [h1]; simp
          · simp only [List.length_cons]; omega
        · rcases hcs with ⟨_, h1⟩ | ⟨_, q, h2⟩
          · exact ⟨[], by rw [h1]; rfl⟩
          · exact ⟨c :: q, by rw [h2]; rfl⟩
    · rcases hcs with ⟨h1, h2⟩ | ⟨h1, q, h2⟩
      · refine ⟨c :: seg, ?_, ?_, Or.inl ⟨?_, by rw [h2]⟩⟩
        · rw [split, if_neg hc, h1]; rfl
        · simp only [List.mem_cons, not_or]
          exact ⟨fun h => hc h.symm, hsep⟩
        · rw [split, if_neg hc, h1]
      · cases hs : split sep cs with
        | nil => rw [hs] at h1; simp at h1
        | cons a as =>
          cases as with
          | nil => rw [hs] at h1; simp at h1
          | cons a2 as =>
            refine ⟨seg, ?_, hsep, Or.inr ⟨?_, c :: q, by rw [h2]; rfl⟩⟩
            · rw [split, if_neg hc, hs]
              rw [hs] at hpop
              simpa [pop] using hpop
            · rw [split, if_neg hc, hs]
              simp

theorem depsField_ok (v : Val) (opener : Str) (items : List Str → Str) (closer : Str)
    (hv : v ≠ .bool true) : ∃ x, depsField v opener items closer = .ok x := by
  unfold depsField
  cases v with
  | undefined => exact ⟨_, rfl⟩
  | bool b =>
    cases b with
    | true => exact absurd rfl hv
    | false => exact ⟨_, rfl⟩
  | str s =>
    cases s with
    | nil => exact ⟨_, rfl⟩
    | cons c s => exact ⟨_, rfl⟩

theorem moduleName_str (p : Str) :
    ∃ seg, moduleName (.str p) =
        .ok (replace "nvim-".toList [] (replace ".nvim".toList [] seg)) ∧
      '/' ∉ seg ∧ (p = seg ∨ ∃ q, p = q ++ '/' :: seg) := by
  obtain ⟨seg, hpop, hsep, hp⟩ := pop_split '/' p
  refine ⟨seg, ?_, hsep, ?_⟩
  · simp only [moduleName, receiver, bind, Except.bind, hpop]
    rfl
  · rcases hp with ⟨_, h⟩ | ⟨_, h⟩
    · exact Or.inl h
    · exact Or.inr h

theorem configBlock_ok (data : Fields) (p : Str) (hp : data.plugin_name = .str p)
    (hadd : truthy data.add_config = true) (hsetup : data.setup_config ≠ .bool true) :
    ∃ seg arg, '/' ∉ seg ∧ (p = seg ∨ ∃ q, p = q ++ '/' :: seg) ∧
      configBlock data = .ok (",\n  config = function()".toList ++ "\n    require('".toList ++
        replace "nvim-".toList [] (replace ".nvim".toList [] seg) ++
        "').setup(".toList ++ arg ++ ")\n  end".toList) := by
  obtain ⟨seg, hm, hsep, hseg⟩ := moduleName_str p
  have harg : ∃ arg, (if truthy data.setup_config = true then do
        let t ← receiver "setup_config" "trim" data.setup_config
        pure (if trim t ≠ [] then trim t else "\x7b\x7d".toList)
      else pure "\x7b\x7d".toList : Except JSError Str) = .ok arg := by
    cases hs : data.setup_config with
    | undefined => exact ⟨_, rfl⟩
    | bool b =>
      cases b with
      | true => exact absurd hs hsetup
      | false => exact ⟨_, rfl⟩
    | str s =>
      cases s with
      | nil => exact ⟨_, rfl⟩
      | cons c s => exact ⟨_, rfl⟩
  obtain ⟨arg, harg⟩ := harg
  refine ⟨seg, arg, hsep, hseg, ?_⟩
  unfold configBlock
  rw [if_pos hadd, hp, hm]
  simp only [bind, Except.bind] at harg ⊢
  rw [harg]
  rfl

set_option maxRecDepth 100000 in
/-- C10, counterexample: for the plugin `hrsh7th/cmp-nvim-lsp`, whose last
segment holds `nvim-` in the middle, the specification gives the module name
`cmp-nvim-lsp`, and the generated code does not require that module. -/
theorem moduleName_strips_inner_occurrence :
    specModuleName "hrsh7th/cmp-nvim-lsp".toList = "cmp-nvim-lsp".toList ∧
    ¬ ∃ code, generatePlugin cmpNvimLsp (.str "lua".toList) = .ok code ∧
      "require('".toList ++ specModuleName "hrsh7th/cmp-nvim-lsp".toList ++ "')".toList
        <:+: code := by
  refine ⟨by decide, ?_⟩
  rintro ⟨code, h, hin⟩
  have h2 : generatePlugin cmpNvimLsp (.str "lua".toList) = .ok
      "\x7b\n  'hrsh7th/cmp-nvim-lsp',\n  config = function()\n    require('cmp-lsp').setup(\x7b\x7d)\n  end\n\x7d".toList :=
    rfl
  rw [h2] at h
  cases h
  revert hin
  decide

/-- C10, amended: when a `lua` manager (`lazy.nvim` or `packer`) emits the
config function, the module name passed to `require` is the last
`/`-separated segment of the plugin identifier after `replace('.nvim', '')`
and then `replace('nvim-', '')`: each removes the first occurrence of its
pattern wherever it lies in the text, and leaves a text without the pattern
unchanged. -/
theorem moduleName_first_occurrences (data : Fields) (p : Str)
    (hp : data.plugin_name = .str p)
    (hm : data.config_type = .str "lazy.nvim".toList ∨ data.config_type = .str "packer".toList)
    (hadd : truthy data.add_config = true)
    (hdeps : data.dependencies ≠ .bool true) (hsetup : data.setup_config ≠ .bool true) :
    (∃ seg before arg, '/' ∉ seg ∧ (p = seg ∨ ∃ q, p = q ++ '/' :: seg) ∧
      generatePlugin data (.str "lua".toList) = .ok
        (before ++ ",\n  config = function()\n    require('".toList ++
          replace "nvim-".toList [] (replace ".nvim".toList [] seg) ++
          "').setup(".toList ++ arg ++ ")\n  end\n\x7d".toList)) ∧
    (∀ pat s : Str, ¬ pat <:+: s → replace pat [] s = s) ∧
    (∀ pat a b : Str, ¬ pat <:+: a ++ pat.dropLast → replace pat [] (a ++ pat ++ b) = a ++ b) := by
  refine ⟨?_, fun pat s h => replace_of_not_infix pat [] s h, fun pat a b h => ?_⟩
  · obtain ⟨seg, arg, hsep, hseg, hcfg⟩ := configBlock_ok data p hp hadd hsetup
    rcases hm with hm | hm
    · obtain ⟨deps, hdf⟩ := depsField_ok data.dependencies ",\n  dependencies = \x7b".toList
        lazyDepLines "\n  \x7d".toList hdeps
      refine ⟨seg, "\x7b\n  '".toList ++ escapeLuaStr p ++ "'".toList ++ deps ++
        (if truthy data.is_optional then ",\n  lazy = true".toList else []), arg, hsep, hseg, ?_⟩
      unfold generatePlugin
      rw [if_pos rfl, if_pos hm, hp, escapeLua_str]
      simp only [bind, Except.bind, pure, Except.pure]
      rw [hdf, hcfg]
      simp
    · obtain ⟨deps, hdf⟩ := depsField_ok data.dependencies ",\n  requires = \x7b".toList
        packerDepItems "\x7d".toList hdeps
      have hne : ¬ (data.config_type = .str "lazy.nvim".toList) := by
        rw [hm]; decide
      refine ⟨seg, "use \x7b\n  '".toList ++ escapeLuaStr p ++ "'".toList ++ deps ++
        (if truthy data.is_optional then ",\n  opt = true".toList else []), arg, hsep, hseg, ?_⟩
      unfold generatePlugin
      rw [if_pos rfl, if_neg hne, if_pos hm, hp, escapeLua_str]
      simp only [bind, Except.bind, pure, Except.pure]
      rw [hdf, hcfg]
      simp
  · simpa using replace_first_occurrence pat [] a b h

theorem moduleName_first_occurrences_witness :
    ∃ seg before arg, '/' ∉ seg ∧
      ("hrsh7th/cmp-nvim-lsp".toList = seg ∨
        ∃ q, "hrsh7th/cmp-nvim-lsp".toList = q ++ '/' :: seg) ∧
      generatePlugin cmpNvimLsp (.str "lua".toList) = .ok
        (before ++ ",\n  config = function()\n    require('".toList ++
          replace "nvim-".toList [] (replace ".nvim".toList [] seg) ++
          "').setup(".toList ++ arg ++ ")\n  end\n\x7d".toList) :=
  (moduleName_first_occurrences cmpNvimLsp "hrsh7th/cmp-nvim-lsp".toList rfl (Or.inl rfl) rfl
    (by decide) (by decide)).1

/-- C11: for the plugin `nvim-telescope/telescope.nvim` under `lazy.nvim` with
the config function and nothing else given, the dialect `lua` output is exactly
the brace block with the name and a config function whose body calls
`require('telescope').setup({})`. -/
theorem generatePlugin_telescope :
    generatePlugin telescopePlugin (.str "lua".toList) = .ok
      "\x7b\n  'nvim-telescope/telescope.nvim',\n  config = function()\n    require('telescope').setup(\x7b\x7d)\n  end\n\x7d".toList :=
  rfl

/-- C16: with the manager `dein` in a dialect other than `lua` the output is
exactly `call dein#add('<plugin_name>')`; two requests that agree on the plugin
name give the same output whatever their dependencies, setup text, config flag
and lazy flag are. -/
theorem generatePlugin_dein (data : Fields) (lang : Val) (p : Str)
    (hlang : lang ≠ .str "lua".toList) (hm : data.config_type = .str "dein".toList)
    (hp : data.plugin_name = .str p) :
    generatePlugin data lang = .ok ("call dein#add('".toList ++ p ++ "')".toList) ∧
    ∀ other : Fields, other.config_type = .str "dein".toList →
      other.plugin_name = data.plugin_name →
      generatePlugin other lang = generatePlugin data lang := by
  have hne : ¬ (Val.str "dein".toList = .str "vim-plug".toList) := by decide
  have key : ∀ d : Fields, d.config_type = .str "dein".toList →
      generatePlugin d lang = .ok ("call dein#add('".toList ++ toStr d.plugin_name ++
        "')".toList) := by
    intro d hd
    unfold generatePlugin
    rw [if_neg hlang, hd, if_neg hne, if_pos rfl]
    rfl
  refine ⟨?_, fun other ho hn => ?_⟩
  · rw [key data hm, hp]; rfl
  · rw [key other ho, key data hm, hn]

theorem generatePlugin_dein_witness :
    generatePlugin { telescopePlugin with config_type := .str "dein".toList }
        (.str "vimscript".toList) =
      .ok "call dein#add('nvim-telescope/telescope.nvim')".toList :=
  (generatePlugin_dein { telescopePlugin with config_type := .str "dein".toList }
    (.str "vimscript".toList) "nvim-telescope/telescope.nvim".toList (by decide) rfl rfl).1

/-- C17: a plugin request whose dialect and manager are not one of the four
supported pairs (`lua` with `lazy.nvim` or `packer`, another dialect with
`vim-plug` or `dein`) succeeds with the single comment line
`" Plugin configuration for <plugin_name>`; it is never an error. -/
theorem generateVimConfig_plugin_fallback (data : Fields) (lang : Val)
    (hlua : lang = .str "lua".toList →
      data.config_type ≠ .str "lazy.nvim".toList ∧ data.config_type ≠ .str "packer".toList)
    (hvim : lang ≠ .str "lua".toList →
      data.config_type ≠ .str "vim-plug".toList ∧ data.config_type ≠ .str "dein".toList) :
    generateVimConfig ⟨.str "Plugin".toList, lang, data⟩ =
      { success := true,
        code := "\" Plugin configuration for ".toList ++ toStr data.plugin_name,
        language := some lang, error := none } := by
  have hk : ¬ (Val.str "Plugin".toList = .str "Keymap".toList) := by decide
  have hd : dispatch ⟨.str "Plugin".toList, lang, data⟩ =
      .ok ("\" Plugin configuration for ".toList ++ toStr data.plugin_name) := by
    unfold dispatch
    simp only []
    rw [if_neg hk, if_pos trivial]
    unfold generatePlugin
    by_cases h : lang = .str "lua".toList
    · rw [if_pos h, if_neg (hlua h).1, if_neg (hlua h).2]; rfl
    · rw [if_neg h, if_neg (hvim h).1, if_neg (hvim h).2]; rfl
  simp only [generateVimConfig, hd]

theorem generateVimConfig_plugin_fallback_witness :
    generateVimConfig
        ⟨.str "Plugin".toList, .str "vimscript".toList, telescopePlugin⟩ =
      { success := true,
        code := "\" Plugin configuration for nvim-telescope/telescope.nvim".toList,
        language := some (.str "vimscript".toList), error := none } :=
  generateVimConfig_plugin_fallback telescopePlugin (.str "vimscript".toList)
    (fun h => absurd h (by decide)) (fun _ => ⟨by decide, by decide⟩)

/-- C20: in a dialect other than `lua` the autocmd generator returns
`autocmd <event> <pattern> <command>` when the group is absent or empty, and
for a non-empty group the four lines `augroup <group>`, `  autocmd!`,
`  autocmd <event> <pattern> <command>`, `augroup END`, without a trailing
newline; every value is embedded unchanged. -/
theorem generateAutocmd_vimscript (data : Fields) (lang : Val) (e p c g : Str)
    (hlang : lang ≠ .str "lua".toList)
    (he : data.event = .str e) (hp : data.pattern = .str p) (hc : data.command = .str c)
    (hg : (data.group = .undefined ∧ g = []) ∨ data.group = .str g) :
    generateAutocmd data lang = .ok
      (if g = [] then "autocmd ".toList ++ e ++ " ".toList ++ p ++ " ".toList ++ c
        else "augroup ".toList ++ g ++ "\n".toList ++ "  autocmd!\n".toList ++
          "  autocmd ".toList ++ e ++ " ".toList ++ p ++ " ".toList ++ c ++ "\n".toList ++
          "augroup END".toList) := by
  obtain ⟨htg, hsg⟩ := truthy_of_description hg
  unfold generateAutocmd
  rw [if_neg hlang, he, hp, hc]
  by_cases h : g = []
  · have : ¬ (truthy data.group = true) := fun ht => (htg.mp ht) h
    rw [if_neg this, if_pos h]
    rfl
  · rw [if_pos (htg.mpr h), if_neg h, hsg h]
    simp only [toStr, pure, Except.pure, List.append_assoc]

theorem generateAutocmd_vimscript_witness :
    generateAutocmd
        { event := .str "BufWritePre".toList, pattern := .str "*.lua".toList,
          command := .str "retab".toList, group := .str "Fmt".toList }
        (.str "vimscript".toList) =
      .ok "augroup Fmt\n  autocmd!\n  autocmd BufWritePre *.lua retab\naugroup END".toList :=
  (generateAutocmd_vimscript _ (.str "vimscript".toList) "BufWritePre".toList "*.lua".toList
    "retab".toList "Fmt".toList (by decide) rfl rfl rfl (Or.inr rfl)).trans
    (congrArg Except.ok (by decide))

theorem autocmdAction_str (c : Str) :
    autocmdAction (.str c) = .ok
      (if startsWith (trim c) "lua ".toList then
        "  callback = function()\n".toList ++ "    ".toList ++ (trim c).drop 4 ++ "\n".toList ++
          "  end,\n".toList
      else "  command = '".toList ++ escapeLuaStr c ++ "',\n".toList) := by
  unfold autocmdAction
  by_cases h : startsWith (trim c) "lua ".toList = true
  · simp only [receiver, bind, Except.bind, if_pos h]
    rfl
  · simp only [receiver, bind, Except.bind, if_neg h, escapeLua]
    rfl

/-- C18: for string pattern and command the autocmd generator in dialect `lua`
returns the registration call whose block holds the pattern field with the
escaped pattern and then, when the trimmed command starts with `lua `, the
three callback lines around the trimmed command without its first four
characters (unescaped) and no command field; otherwise the single command
field with the whole untrimmed command escaped and no callback.  The event is
embedded unescaped; a truthy group adds the two augroup lines before the call
and the group field before the pattern. -/
theorem generateAutocmd_lua (data : Fields) (p c : Str)
    (hp : data.pattern = .str p) (hc : data.command = .str c) :
    generateAutocmd data (.str "lua".toList) = .ok
      ((if truthy data.group then
          "-- Augroup: ".toList ++ toStr data.group ++ "\n".toList ++
          "local ".toList ++ toStr data.group ++ " = vim.api.nvim_create_augroup('".toList ++
            toStr data.group ++ "', \x7b clear = true \x7d)\n".toList
        else []) ++
       "vim.api.nvim_create_autocmd('".toList ++ toStr data.event ++ "', \x7b\n".toList ++
       (if truthy data.group then "  group = ".toList ++ toStr data.group ++ ",\n".toList
        else []) ++
       "  pattern = '".toList ++ escapeLuaStr p ++ "',\n".toList ++
       (if startsWith (trim c) "lua ".toList then
          "  callback = function()\n".toList ++ "    ".toList ++ (trim c).drop 4 ++
            "\n".toList ++ "  end,\n".toList
        else "  command = '".toList ++ escapeLuaStr c ++ "',\n".toList) ++
       "\x7d)".toList) := by
  unfold generateAutocmd
  rw [if_pos rfl, hp, hc, escapeLua_str, autocmdAction_str]
  by_cases hg : truthy data.group = true
  · rw [if_pos hg, if_pos hg, if_pos hg]
    simp only [bind, Except.bind, pure, Except.pure, List.append_assoc]
  · rw [if_neg hg, if_neg hg, if_neg hg]
    simp only [bind, Except.bind, pure, Except.pure, List.append_assoc, List.nil_append]

theorem generateAutocmd_lua_witness :
    generateAutocmd formatAutocmd (.str "lua".toList) = .ok
      ("-- Augroup: Fmt\nlocal Fmt = vim.api.nvim_create_augroup('Fmt', \x7b clear = true \x7d)\n".toList ++
        "vim.api.nvim_create_autocmd('BufWritePre', \x7b\n  group = Fmt,\n".toList ++
        "  pattern = '*.lua',\n  callback = function()\n    vim.lsp.buf.format()\n".toList ++
        "  end,\n\x7d)".toList) :=
  (generateAutocmd_lua formatAutocmd "*.lua".toList "lua vim.lsp.buf.format()".toList
    rfl rfl).trans rfl

theorem split_ne_nil (sep : Char) (s : Str) : split sep s ≠ [] := by
  cases s with
  | nil => simp [split]
  | cons c cs =>
    rw [split]
    split
    · simp
    · split <;> simp

theorem split_append_sep (sep : Char) (a b : Str) (h : sep ∉ a) :
    split sep (a ++ sep :: b) = a :: split sep b := by
  induction a with
  | nil => simp [split]
  | cons x a ih =>
    have hx : ¬ (x = sep) := fun hx => h (by simp [hx])
    have ha : sep ∉ a := fun ha => h (List.mem_cons_of_mem _ ha)
    rw [List.cons_append, split, if_neg hx, ih ha]

theorem split_of_not_mem (sep : Char) (a : Str) (h : sep ∉ a) : split sep a = [a] := by
  induction a with
  | nil => rfl
  | cons x a ih =>
    have hx : ¬ (x = sep) := fun hx => h (by simp [hx])
    have ha : sep ∉ a := fun ha => h (List.mem_cons_of_mem _ ha)
    rw [split, if_neg hx, ih ha]

theorem intercalate_split (sep : Char) (s : Str) : [sep].intercalate (split sep s) = s := by
  rw [← join_eq_intercalate]
  induction s with
  | nil => rfl
  | cons c cs ih =>
    rw [split]
    by_cases hc : c = sep
    · rw [if_pos hc]
      cases hs : split sep cs with
      | nil => exact absurd hs (split_ne_nil sep cs)
      | cons p ps =>
        rw [hs] at ih
        rw [join, ih, hc]
        rfl
    · rw [if_neg hc]
      cases hs : split sep cs with
      | nil => exact absurd hs (split_ne_nil sep cs)
      | cons p ps =>
        rw [hs] at ih
        cases ps with
        | nil =>
          simp only [join] at ih ⊢
          rw [ih]
        | cons q qs =>
          simp only [join] at ih ⊢
          rw [← ih]
          simp

theorem insertAfterFirstLine_append (line first rest : Str) (h : '\n' ∉ first) :
    insertAfterFirstLine line (first ++ '\n' :: rest) =
      first ++ '\n' :: (line ++ '\n' :: rest) := by
  unfold insertAfterFirstLine
  rw [split_append_sep '\n' first rest h]
  show ['\n'].intercalate (first :: line :: split '\n' rest) = _
  have h2 := intercalate_split '\n' rest
  rw [← join_eq_intercalate] at h2 ⊢
  cases hs : split '\n' rest with
  | nil => exact absurd hs (split_ne_nil _ rest)
  | cons q qs =>
    rw [hs] at h2
    simp only [join]
    rw [h2]
    simp

/-- C19, counterexample: for an event that holds a line feed the grouped
output is not the two augroup lines followed by the ungrouped output with the
group line inserted after its first line. -/
theorem generateAutocmd_group_event_line_feed :
    ¬ ∃ grouped plain,
      generateAutocmd twoLineEventAutocmd (.str "lua".toList) = .ok grouped ∧
      generateAutocmd { twoLineEventAutocmd with group := .undefined } (.str "lua".toList) =
        .ok plain ∧
      grouped = "-- Augroup: G\n".toList ++
        "local G = vim.api.nvim_create_augroup('G', \x7b clear = true \x7d)\n".toList ++
        insertAfterFirstLine "  group = G,".toList plain := by
  rintro ⟨grouped, plain, hg, hp, h⟩
  have hg2 : generateAutocmd twoLineEventAutocmd (.str "lua".toList) = .ok
      ("-- Augroup: G\nlocal G = vim.api.nvim_create_augroup('G', \x7b clear = true \x7d)\n".toList ++
        "vim.api.nvim_create_autocmd('a\nb', \x7b\n  group = G,\n  pattern = '*',\n".toList ++
        "  command = 'x',\n\x7d)".toList) := rfl
  have hp2 : generateAutocmd { twoLineEventAutocmd with group := .undefined }
      (.str "lua".toList) = .ok
      "vim.api.nvim_create_autocmd('a\nb', \x7b\n  pattern = '*',\n  command = 'x',\n\x7d)".toList :=
    rfl
  rw [hg2] at hg
  rw [hp2] at hp
  cases hg
  cases hp
  have hins : insertAfterFirstLine "  group = G,".toList
      "vim.api.nvim_create_autocmd('a\nb', \x7b\n  pattern = '*',\n  command = 'x',\n\x7d)".toList =
      "vim.api.nvim_create_autocmd('a\n  group = G,\nb', \x7b\n  pattern = '*',\n  command = 'x',\n\x7d)".toList :=
    rfl
  rw [hins] at h
  have h2 := congrArg (fun l : Str => l.drop 110) h
  revert h2
  decide

theorem generateAutocmd_lua_plain (data : Fields) (p c : Str)
    (hp : data.pattern = .str p) (hc : data.command = .str c)
    (hg : truthy data.group = false) :
    ∃ action, autocmdAction (.str c) = .ok action ∧
      generateAutocmd data (.str "lua".toList) = .ok
        ("vim.api.nvim_create_autocmd('".toList ++ toStr data.event ++ "', \x7b\n".toList ++
          "  pattern = '".toList ++ escapeLuaStr p ++ "',\n".toList ++ action ++
          "\x7d)".toList) := by
  refine ⟨_, autocmdAction_str c, ?_⟩
  unfold generateAutocmd
  rw [if_pos rfl, hp, hc, escapeLua_str, autocmdAction_str, if_neg (by simp [hg])]
  rfl

theorem generateAutocmd_lua_grouped (data : Fields) (p c : Str)
    (hp : data.pattern = .str p) (hc : data.command = .str c)
    (hg : truthy data.group = true) :
    ∃ action, autocmdAction (.str c) = .ok action ∧
      generateAutocmd data (.str "lua".toList) = .ok
        ("-- Augroup: ".toList ++ toStr data.group ++ "\n".toList ++
          "local ".toList ++ toStr data.group ++ " = vim.api.nvim_create_augroup('".toList ++
            toStr data.group ++ "', \x7b clear = true \x7d)\n".toList ++
          "vim.api.nvim_create_autocmd('".toList ++ toStr data.event ++ "', \x7b\n".toList ++
          "  group = ".toList ++ toStr data.group ++ ",\n".toList ++
          "  pattern = '".toList ++ escapeLuaStr p ++ "',\n".toList ++ action ++
          "\x7d)".toList) := by
  refine ⟨_, autocmdAction_str c, ?_⟩
  unfold generateAutocmd
  rw [if_pos rfl, hp, hc, escapeLua_str, autocmdAction_str, if_pos hg]
  rfl

/-- C19, amended: for an event without a line feed, string pattern and command
and a non-empty group `g`, the dialect `lua` output is the comment line
`-- Augroup: g`, the group-creation line, and then the output for the same
event, pattern and command without a group with the line `  group = g,`
inserted directly after its first line.  The output for an absent or empty
group is the registration call alone, with the pattern field and the callback
or command field: no group field and no group-creation statement. -/
theorem generateAutocmd_group_refines (data : Fields) (e p c g : Str)
    (he : data.event = .str e) (hnl : '\n' ∉ e)
    (hp : data.pattern = .str p) (hc : data.command = .str c)
    (hg : data.group = .str g) (hgne : g ≠ []) :
    ∃ plain action,
      autocmdAction (.str c) = .ok action ∧
      plain = "vim.api.nvim_create_autocmd('".toList ++ e ++ "', \x7b\n".toList ++
        "  pattern = '".toList ++ escapeLuaStr p ++ "',\n".toList ++ action ++ "\x7d)".toList ∧
      generateAutocmd { data with group := .undefined } (.str "lua".toList) = .ok plain ∧
      generateAutocmd { data with group := .str [] } (.str "lua".toList) = .ok plain ∧
      generateAutocmd data (.str "lua".toList) = .ok
        ("-- Augroup: ".toList ++ g ++ "\n".toList ++
          "local ".toList ++ g ++ " = vim.api.nvim_create_augroup('".toList ++ g ++
            "', \x7b clear = true \x7d)\n".toList ++
          insertAfterFirstLine ("  group = ".toList ++ g ++ ",".toList) plain) := by
  have htg : truthy data.group = true := by
    rw [hg]
    cases g with
    | nil => exact absurd rfl hgne
    | cons x g => rfl
  obtain ⟨action, ha, hgrouped⟩ := generateAutocmd_lua_grouped data p c hp hc htg
  obtain ⟨a1, ha1, hplain1⟩ :=
    generateAutocmd_lua_plain { data with group := .undefined } p c hp hc rfl
  obtain ⟨a2, ha2, hplain2⟩ :=
    generateAutocmd_lua_plain { data with group := .str [] } p c hp hc rfl
  rw [ha] at ha1 ha2
  cases ha1
  cases ha2
  refine ⟨_, action, ha, rfl, ?_, ?_, ?_⟩
  · rw [hplain1]
    show Except.ok (_ ++ toStr data.event ++ _ ++ _ ++ _ ++ _ ++ _ ++ _) = _
    rw [he]
    rfl
  · rw [hplain2]
    show Except.ok (_ ++ toStr data.event ++ _ ++ _ ++ _ ++ _ ++ _ ++ _) = _
    rw [he]
    rfl
  · have hfirst : '\n' ∉ "vim.api.nvim_create_autocmd('".toList ++ e ++ "', \x7b".toList := by
      simp only [List.mem_append, not_or]
      exact ⟨⟨by decide, hnl⟩, by decide⟩
    have hsplit : ("vim.api.nvim_create_autocmd('".toList ++ e ++ "', \x7b\n".toList ++
        "  pattern = '".toList ++ escapeLuaStr p ++ "',\n".toList ++ action ++ "\x7d)".toList) =
        ("vim.api.nvim_create_autocmd('".toList ++ e ++ "', \x7b".toList) ++
          '\n' :: ("  pattern = '".toList ++ escapeLuaStr p ++ "',\n".toList ++ action ++
            "\x7d)".toList) := by
      simp
    rw [hgrouped, hsplit, insertAfterFirstLine_append _ _ _ hfirst, hg, he]
    simp [toStr]

theorem generateAutocmd_group_refines_witness :
    ∃ plain action,
      autocmdAction (.str "lua vim.lsp.buf.format()".toList) = .ok action ∧
      plain = "vim.api.nvim_create_autocmd('".toList ++ "BufWritePre".toList ++
        "', \x7b\n".toList ++ "  pattern = '".toList ++ escapeLuaStr "*.lua".toList ++
        "',\n".toList ++ action ++ "\x7d)".toList ∧
      generateAutocmd { formatAutocmd with group := .undefined } (.str "lua".toList) =
        .ok plain ∧
      generateAutocmd { formatAutocmd with group := .str [] } (.str "lua".toList) = .ok plain ∧
      generateAutocmd formatAutocmd (.str "lua".toList) = .ok
        ("-- Augroup: ".toList ++ "Fmt".toList ++ "\n".toList ++
          "local ".toList ++ "Fmt".toList ++ " = vim.api.nvim_create_augroup('".toList ++
            "Fmt".toList ++ "', \x7b clear = true \x7d)\n".toList ++
          insertAfterFirstLine ("  group = ".toList ++ "Fmt".toList ++ ",".toList) plain) :=
  generateAutocmd_group_refines formatAutocmd "BufWritePre".toList "*.lua".toList
    "lua vim.lsp.buf.format()".toList "Fmt".toList rfl (by decide) rfl rfl rfl (by decide)

theorem enumFrom_flatMap_sep (f : Str → Str) (sep : Str) (l : List Str) (n N : Nat)
    (hN : N = n + l.length) :
    (l.enumFrom n).flatMap (fun (x : Nat × Str) =>
        f x.2 ++ (if x.1 < N - 1 then sep else [])) =
      sep.intercalate (l.map f) := by
  rw [← join_eq_intercalate]
  induction l generalizing n with
  | nil => rfl
  | cons d l ih =>
    rw [List.enumFrom_cons, List.flatMap_cons, ih (n + 1) (by simp at hN; omega)]
    cases l with
    | nil =>
      have : ¬ (n < N - 1) := by simp at hN; omega
      simp [join, this]
    | cons d2 l =>
      have : n < N - 1 := by simp at hN; omega
      simp [join, this]

theorem lazyDepLines_eq (deps : List Str) :
    lazyDepLines deps =
      ",".toList.intercalate
        (deps.map (fun d => "\n    '".toList ++ escapeLuaStr d ++ "'".toList)) := by
  unfold lazyDepLines
  exact enumFrom_flatMap_sep (fun d => "\n    '".toList ++ escapeLuaStr d ++ "'".toList)
    ",".toList deps 0 deps.length (by simp)

theorem packerDepItems_eq (deps : List Str) :
    packerDepItems deps =
      ", ".toList.intercalate
        (deps.map (fun d => "'".toList ++ escapeLuaStr d ++ "'".toList)) := by
  unfold packerDepItems
  exact enumFrom_flatMap_sep (fun d => "'".toList ++ escapeLuaStr d ++ "'".toList)
    ", ".toList deps 0 deps.length (by simp)

theorem depsField_of_text (v : Val) (s opener closer : Str) (items : List Str → Str)
    (hv : (v = .undefined ∧ s = []) ∨ v = .str s) :
    depsField v opener items closer =
      .ok (if parseDeps s = [] then [] else opener ++ items (parseDeps s) ++ closer) := by
  unfold depsField
  rcases hv with ⟨rfl, rfl⟩ | rfl
  · rfl
  · cases s with
    | nil => rfl
    | cons c s =>
      simp only [truthy, List.isEmpty, Bool.not_false, if_true, receiver, bind, Except.bind,
        pure, Except.pure]
      cases parseDeps (c :: s) <;> simp

theorem configBlock_of_text (data : Fields) (p t : Str) (hp : data.plugin_name = .str p)
    (ht : (data.setup_config = .undefined ∧ t = []) ∨ data.setup_config = .str t) :
    ∃ m, moduleName (.str p) = .ok m ∧
      configBlock data = .ok
        (if truthy data.add_config then
          ",\n  config = function()".toList ++ "\n    require('".toList ++ m ++
            "').setup(".toList ++ (if trim t ≠ [] then trim t else "\x7b\x7d".toList) ++
            ")\n  end".toList
        else []) := by
  obtain ⟨seg, hm, _⟩ := moduleName_str p
  refine ⟨_, hm, ?_⟩
  unfold configBlock
  by_cases ha : truthy data.add_config = true
  · rw [if_pos ha, if_pos ha, hp, hm]
    rcases ht with ⟨hs, rfl⟩ | hs
    · rw [hs]; rfl
    · rw [hs]
      cases t with
      | nil => rfl
      | cons c t => rfl
  · rw [if_neg ha, if_neg ha]; rfl

theorem trim_decompose (s : Str) :
    ∃ a b, s = a ++ trim s ++ b ∧
      (∀ c ∈ a, isStrWhiteSpaceChar c = true) ∧ (∀ c ∈ b, isStrWhiteSpaceChar c = true) ∧
      (∀ c, (trim s).head? = some c → isStrWhiteSpaceChar c = false) ∧
      (∀ c, (trim s).getLast? = some c → isStrWhiteSpaceChar c = false) := by
  have hu : (s.dropWhile isStrWhiteSpaceChar) =
      trim s ++ ((s.dropWhile isStrWhiteSpaceChar).reverse.takeWhile isStrWhiteSpaceChar).reverse := by
    unfold trim
    rw [← List.reverse_append, List.takeWhile_append_dropWhile, List.reverse_reverse]
  refine ⟨s.takeWhile isStrWhiteSpaceChar,
    ((s.dropWhile isStrWhiteSpaceChar).reverse.takeWhile isStrWhiteSpaceChar).reverse,
    ?_, ?_, ?_, ?_, ?_⟩
  · rw [List.append_assoc, ← hu, List.takeWhile_append_dropWhile]
  · intro c hc
    exact (List.mem_takeWhile_imp hc)
  · intro c hc
    exact List.mem_takeWhile_imp (List.mem_reverse.mp hc)
  · intro c hc
    have h1 := List.head?_dropWhile_not isStrWhiteSpaceChar s
    cases ht : trim s with
    | nil => rw [ht] at hc; simp at hc
    | cons x xs =>
      rw [ht] at hc hu
      rw [hu] at h1
      simp only [List.cons_append, List.head?_cons] at h1 hc
      cases hc
      exact h1
  · intro c hc
    have h1 := List.head?_dropWhile_not isStrWhiteSpaceChar
      (s.dropWhile isStrWhiteSpaceChar).reverse
    unfold trim at hc
    rw [List.getLast?_reverse] at hc
    rw [hc] at h1
    exact h1

theorem mem_of_mem_split (sep : Char) (s piece : Str) (h : piece ∈ split sep s) :
    ∀ c ∈ piece, c ∈ s ∧ c ≠ sep := by
  induction s generalizing piece with
  | nil =>
    simp only [split, List.mem_singleton] at h
    subst h
    simp
  | cons x xs ih =>
    rw [split] at h
    by_cases hx : x = sep
    · rw [if_pos hx] at h
      rcases List.mem_cons.mp h with rfl | h
      · simp
      · intro c hc
        exact ⟨List.mem_cons_of_mem _ (ih piece h c hc).1, (ih piece h c hc).2⟩
    · rw [if_neg hx] at h
      cases hs : split sep xs with
      | nil => exact absurd hs (split_ne_nil sep xs)
      | cons q qs =>
        rw [hs] at h ih
        rcases List.mem_cons.mp h with rfl | h
        · intro c hc
          rcases List.mem_cons.mp hc with rfl | hc
          · exact ⟨List.mem_cons_self _ _, hx⟩
          · have := ih q (List.mem_cons_self _ _) c hc
            exact ⟨List.mem_cons_of_mem _ this.1, this.2⟩
        · intro c hc
          have := ih piece (List.mem_cons_of_mem _ h) c hc
          exact ⟨List.mem_cons_of_mem _ this.1, this.2⟩

theorem mem_parseDeps (s d : Str) (h : d ∈ parseDeps s) :
    d ≠ [] ∧ ∀ c ∈ d, c ∈ s ∧ c ≠ ',' := by
  unfold parseDeps at h
  rw [List.mem_filter, List.mem_map] at h
  obtain ⟨⟨piece, hpiece, rfl⟩, hne⟩ := h
  refine ⟨by intro h0; simp [h0] at hne, fun c hc => ?_⟩
  obtain ⟨a, b, hab, _⟩ := trim_decompose piece
  apply mem_of_mem_split ',' s piece hpiece
  rw [hab]
  simp [hc]

theorem parseDeps_eq_nil (s : Str) (h : ∀ c ∈ s, c = ',' ∨ isStrWhiteSpaceChar c = true) :
    parseDeps s = [] := by
  unfold parseDeps
  rw [List.filter_eq_nil_iff]
  intro d hd
  obtain ⟨piece, hpiece, rfl⟩ := List.mem_map.mp hd
  have : trim piece = [] := by
    apply trim_eq_nil_of_all
    intro c hc
    have := mem_of_mem_split ',' s piece hpiece c hc
    rcases h c this.1 with h1 | h1
    · exact absurd h1 this.2
    · exact h1
  simp [this]

theorem generatePlugin_lazy_of_text (data : Fields) (p s t : Str)
    (hm : data.config_type = .str "lazy.nvim".toList) (hp : data.plugin_name = .str p)
    (hd : (data.dependencies = .undefined ∧ s = []) ∨ data.dependencies = .str s)
    (ht : (data.setup_config = .undefined ∧ t = []) ∨ data.setup_config = .str t) :
    ∃ m, moduleName (.str p) = .ok m ∧
      generatePlugin data (.str "lua".toList) = .ok
        ("\x7b\n  '".toList ++ escapeLuaStr p ++ "'".toList ++
          (if parseDeps s = [] then []
            else ",\n  dependencies = \x7b".toList ++ lazyDepLines (parseDeps s) ++
              "\n  \x7d".toList) ++
          (if truthy data.is_optional then ",\n  lazy = true".toList else []) ++
          (if truthy data.add_config then
            ",\n  config = function()".toList ++ "\n    require('".toList ++ m ++
              "').setup(".toList ++ (if trim t ≠ [] then trim t else "\x7b\x7d".toList) ++
              ")\n  end".toList
          else []) ++
          "\n\x7d".toList) := by
  obtain ⟨m, hmod, hcfg⟩ := configBlock_of_text data p t hp ht
  refine ⟨m, hmod, ?_⟩
  unfold generatePlugin
  rw [if_pos rfl, if_pos hm, hp, escapeLua_str,
    depsField_of_text data.dependencies s _ _ _ hd, hcfg]
  rfl

theorem generatePlugin_packer_of_text (data : Fields) (p s t : Str)
    (hm : data.config_type = .str "packer".toList) (hp : data.plugin_name = .str p)
    (hd : (data.dependencies = .undefined ∧ s = []) ∨ data.dependencies = .str s)
    (ht : (data.setup_config = .undefined ∧ t = []) ∨ data.setup_config = .str t) :
    ∃ m, moduleName (.str p) = .ok m ∧
      generatePlugin data (.str "lua".toList) = .ok
        ("use \x7b\n  '".toList ++ escapeLuaStr p ++ "'".toList ++
          (if parseDeps s = [] then []
            else ",\n  requires = \x7b".toList ++ packerDepItems (parseDeps s) ++ "\x7d".toList) ++
          (if truthy data.is_optional then ",\n  opt = true".toList else []) ++
          (if truthy data.add_config then
            ",\n  config = function()".toList ++ "\n    require('".toList ++ m ++
              "').setup(".toList ++ (if trim t ≠ [] then trim t else "\x7b\x7d".toList) ++
              ")\n  end".toList
          else []) ++
          "\n\x7d".toList) := by
  obtain ⟨m, hmod, hcfg⟩ := configBlock_of_text data p t hp ht
  have hne : ¬ (data.config_type = .str "lazy.nvim".toList) := by rw [hm]; decide
  refine ⟨m, hmod, ?_⟩
  unfold generatePlugin
  rw [if_pos rfl, if_neg hne, if_pos hm, hp, escapeLua_str,
    depsField_of_text data.dependencies s _ _ _ hd, hcfg]
  rfl

/-- C12: under `lazy.nvim` in dialect `lua` (plugin name a string,
dependencies and setup text each a string or absent) the output is the brace
block with, in this order: the escaped quoted plugin name; the
`dependencies` field exactly when the dependency list `D` is non-empty,
holding the escaped quoted elements of `D` in order, one per line; `lazy = true`
exactly when `is_optional` holds; the config function exactly when `add_config`
holds.  `D` is the dependency text split on `,`, each piece trimmed, empty
pieces dropped; it is empty when the text is absent, empty, or made only of
commas and white space. -/
theorem generatePlugin_lazy (data : Fields) (p s t : Str)
    (hm : data.config_type = .str "lazy.nvim".toList) (hp : data.plugin_name = .str p)
    (hd : (data.dependencies = .undefined ∧ s = []) ∨ data.dependencies = .str s)
    (ht : (data.setup_config = .undefined ∧ t = []) ∨ data.setup_config = .str t) :
    ∃ (D : List Str) (body : Str),
      D = ((split ',' s).map trim).filter (fun d => !d.isEmpty) ∧
      [','].intercalate (split ',' s) = s ∧
      (∀ piece ∈ split ',' s, ',' ∉ piece) ∧
      ((∀ c ∈ s, c = ',' ∨ isStrWhiteSpaceChar c = true) → D = []) ∧
      generatePlugin data (.str "lua".toList) = .ok
        ("\x7b\n  '".toList ++ escapeLuaStr p ++ "'".toList ++
          (if D = [] then []
            else ",\n  dependencies = \x7b".toList ++
              ",".toList.intercalate
                (D.map (fun d => "\n    '".toList ++ escapeLuaStr d ++ "'".toList)) ++
              "\n  \x7d".toList) ++
          (if truthy data.is_optional then ",\n  lazy = true".toList else []) ++
          (if truthy data.add_config then
            ",\n  config = function()".toList ++ body ++ "\n  end".toList
          else []) ++
          "\n\x7d".toList) := by
  obtain ⟨m, _, hgen⟩ := generatePlugin_lazy_of_text data p s t hm hp hd ht
  refine ⟨parseDeps s, "\n    require('".toList ++ m ++ "').setup(".toList ++
    (if trim t ≠ [] then trim t else "\x7b\x7d".toList) ++ ")".toList, rfl,
    intercalate_split ',' s, ?_, parseDeps_eq_nil s, ?_⟩
  · intro piece hpiece hc
    exact (mem_of_mem_split ',' s piece hpiece ',' hc).2 rfl
  · rw [hgen, lazyDepLines_eq]
    congr 1
    by_cases ha : truthy data.add_config = true
    · simp [ha]
    · simp [ha]

theorem generatePlugin_lazy_witness :
    ∃ (D : List Str) (body : Str),
      D = ["a/b".toList, "c".toList] ∧
      generatePlugin fullLazyPlugin (.str "lua".toList) = .ok
        ("\x7b\n  '".toList ++ escapeLuaStr "nvim-telescope/telescope.nvim".toList ++ "'".toList ++
          (if D = [] then []
            else ",\n  dependencies = \x7b".toList ++
              ",".toList.intercalate
                (D.map (fun d => "\n    '".toList ++ escapeLuaStr d ++ "'".toList)) ++
              "\n  \x7d".toList) ++
          (if truthy fullLazyPlugin.is_optional then ",\n  lazy = true".toList else []) ++
          (if truthy fullLazyPlugin.add_config then
            ",\n  config = function()".toList ++ body ++ "\n  end".toList
          else []) ++
          "\n\x7d".toList) :=
  match generatePlugin_lazy fullLazyPlugin "nvim-telescope/telescope.nvim".toList
      " a/b , ,c".toList "x".toList rfl rfl (Or.inr rfl) (Or.inr rfl) with
  | ⟨D, body, hD, _, _, _, hg⟩ => ⟨D, body, hD.trans (by decide), hg⟩

theorem depsField_of_text_false (opener closer : Str) (items : List Str → Str) :
    depsField (.bool false) opener items closer = .ok [] := rfl

/-- C13, counterexample: with one dependency the `packer` output is not the
`lazy.nvim` output with only the opening and the field names replaced: the
dependency list is laid out on one line. -/
theorem packer_dependency_layout_differs :
    generatePlugin { oneDependencyPlugin with config_type := .str "lazy.nvim".toList }
        (.str "lua".toList) =
      .ok "\x7b\n  'x/y',\n  dependencies = \x7b\n    'a'\n  \x7d\n\x7d".toList ∧
    generatePlugin { oneDependencyPlugin with config_type := .str "packer".toList }
        (.str "lua".toList) =
      .ok "use \x7b\n  'x/y',\n  requires = \x7b'a'\x7d\n\x7d".toList ∧
    packerFromLazy "\x7b\n  'x/y',\n  dependencies = \x7b\n    'a'\n  \x7d\n\x7d".toList =
      "use \x7b\n  'x/y',\n  requires = \x7b\n    'a'\n  \x7d\n\x7d".toList ∧
    "use \x7b\n  'x/y',\n  requires = \x7b'a'\x7d\n\x7d".toList ≠
      packerFromLazy "\x7b\n  'x/y',\n  dependencies = \x7b\n    'a'\n  \x7d\n\x7d".toList := by
  refine ⟨rfl, rfl, by decide, by decide⟩

/-- C13, amended: for every plugin fields record the two `lua` managers fail
on the same records with the same exception, and otherwise their outputs hold
the same name, the same dependency list, the same lazy flag and the same config
function, and differ only in the opening (`{` or `use {`), in the field names
(`dependencies` or `requires`, `lazy` or `opt`) and in the layout of the
dependency list: `lazy.nvim` writes each dependency on a line of its own,
separated by `,`, and closes the list on a new line; `packer` writes them on one
line, separated by `, `, and closes the list at once. -/
theorem packer_lazy_same_content (data : Fields) :
    (∀ e, generatePlugin { data with config_type := .str "lazy.nvim".toList }
          (.str "lua".toList) = .error e ↔
        generatePlugin { data with config_type := .str "packer".toList }
          (.str "lua".toList) = .error e) ∧
    (∀ text, generatePlugin { data with config_type := .str "lazy.nvim".toList }
          (.str "lua".toList) = .ok text →
      ∃ (name : Str) (D : List Str) (config : Str),
        text = "\x7b\n  '".toList ++ name ++ "'".toList ++
          (if D = [] then []
            else ",\n  dependencies = \x7b".toList ++
              ",".toList.intercalate
                (D.map (fun d => "\n    '".toList ++ escapeLuaStr d ++ "'".toList)) ++
              "\n  \x7d".toList) ++
          (if truthy data.is_optional then ",\n  lazy = true".toList else []) ++
          config ++ "\n\x7d".toList ∧
        generatePlugin { data with config_type := .str "packer".toList }
            (.str "lua".toList) = .ok
          ("use \x7b\n  '".toList ++ name ++ "'".toList ++
            (if D = [] then []
              else ",\n  requires = \x7b".toList ++
                ", ".toList.intercalate
                  (D.map (fun d => "'".toList ++ escapeLuaStr d ++ "'".toList)) ++
                "\x7d".toList) ++
            (if truthy data.is_optional then ",\n  opt = true".toList else []) ++
            config ++ "\n\x7d".toList)) := by
  have hne : ¬ (Val.str "packer".toList = .str "lazy.nvim".toList) := by decide
  have hL : generatePlugin { data with config_type := .str "lazy.nvim".toList }
      (.str "lua".toList) = (do
        let name ← escapeLua data.plugin_name
        let deps ← depsField data.dependencies ",\n  dependencies = \x7b".toList lazyDepLines
          "\n  \x7d".toList
        let config ← configBlock data
        pure ("\x7b\n  '".toList ++ name ++ "'".toList ++ deps ++
          (if truthy data.is_optional then ",\n  lazy = true".toList else []) ++ config ++
          "\n\x7d".toList)) := by
    unfold generatePlugin
    rw [if_pos rfl, if_pos rfl]
    rfl
  have hP : generatePlugin { data with config_type := .str "packer".toList }
      (.str "lua".toList) = (do
        let name ← escapeLua data.plugin_name
        let deps ← depsField data.dependencies ",\n  requires = \x7b".toList packerDepItems
          "\x7d".toList
        let config ← configBlock data
        pure ("use \x7b\n  '".toList ++ name ++ "'".toList ++ deps ++
          (if truthy data.is_optional then ",\n  opt = true".toList else []) ++ config ++
          "\n\x7d".toList)) := by
    unfold generatePlugin
    rw [if_pos rfl, if_neg hne, if_pos rfl]
    rfl
  rw [hL, hP]
  cases hn : escapeLua data.plugin_name with
  | error e0 =>
    refine ⟨fun e => Iff.rfl, fun text h => ?_⟩
    simp [bind, Except.bind] at h
  | ok name =>
    cases hdv : data.dependencies with
    | bool b =>
      cases b with
      | true =>
        refine ⟨fun e => Iff.rfl, fun text h => ?_⟩
        simp [bind, Except.bind, depsField, truthy, receiver] at h
      | false =>
        have h1 := depsField_of_text_false ",\n  dependencies = \x7b".toList "\n  \x7d".toList
          lazyDepLines
        have h2 := depsField_of_text_false ",\n  requires = \x7b".toList "\x7d".toList
          packerDepItems
        simp only [bind, Except.bind, h1, h2]
        cases hc : configBlock data with
        | error e1 => exact ⟨fun e => Iff.rfl, fun text h => by simp at h⟩
        | ok config =>
          refine ⟨fun e => by simp [pure, Except.pure], fun text h => ?_⟩
          refine ⟨name, [], config, ?_, ?_⟩
          · simp only [pure, Except.pure, Except.ok.injEq] at h
            rw [← h]; simp
          · simp [pure, Except.pure]
    | undefined =>
      have h1 := depsField_of_text .undefined [] ",\n  dependencies = \x7b".toList "\n  \x7d".toList
        lazyDepLines (Or.inl ⟨rfl, rfl⟩)
      have h2 := depsField_of_text .undefined [] ",\n  requires = \x7b".toList "\x7d".toList
        packerDepItems (Or.inl ⟨rfl, rfl⟩)
      simp only [bind, Except.bind, h1, h2]
      cases hc : configBlock data with
      | error e1 => exact ⟨fun e => Iff.rfl, fun text h => by simp at h⟩
      | ok config =>
        refine ⟨fun e => by simp [pure, Except.pure], fun text h => ?_⟩
        refine ⟨name, parseDeps [], config, ?_, ?_⟩
        · simp only [pure, Except.pure, Except.ok.injEq] at h
          rw [← h, lazyDepLines_eq]
        · simp only [pure, Except.pure]
          rw [packerDepItems_eq]
    | str s =>
      have h1 := depsField_of_text (.str s) s ",\n  dependencies = \x7b".toList "\n  \x7d".toList
        lazyDepLines (Or.inr rfl)
      have h2 := depsField_of_text (.str s) s ",\n  requires = \x7b".toList "\x7d".toList
        packerDepItems (Or.inr rfl)
      simp only [bind, Except.bind, h1, h2]
      cases hc : configBlock data with
      | error e1 => exact ⟨fun e => Iff.rfl, fun text h => by simp at h⟩
      | ok config =>
        refine ⟨fun e => by simp [pure, Except.pure], fun text h => ?_⟩
        refine ⟨name, parseDeps s, config, ?_, ?_⟩
        · simp only [pure, Except.pure, Except.ok.injEq] at h
          rw [← h, lazyDepLines_eq]
        · simp only [pure, Except.pure]
          rw [packerDepItems_eq]

set_option maxRecDepth 100000 in
/-- C14, counterexample: a setup text with a leading and a trailing blank is
not embedded verbatim between `.setup(` and `)`. -/
theorem setup_text_not_verbatim :
    ¬ ∃ code, generatePlugin paddedSetupPlugin (.str "lua".toList) = .ok code ∧
      ".setup(".toList ++ " \x7b x = 1 \x7d ".toList ++ ")".toList <:+: code := by
  rintro ⟨code, h, hin⟩
  have h2 : generatePlugin paddedSetupPlugin (.str "lua".toList) = .ok
      "\x7b\n  'x/y',\n  config = function()\n    require('y').setup(\x7b x = 1 \x7d)\n  end\n\x7d".toList :=
    rfl
  rw [h2] at h
  cases h
  revert hin
  decide

/-- C14, amended: when a `lua` manager emits the config function, the text
between `.setup(` and the closing `)` is the setup text with its leading and
trailing white space trimmed and otherwise character for character, whenever
that trimmed text is non-empty; it is the empty-table literal `{}` when the
setup text is absent, empty, or white space only. -/
theorem setup_text_trimmed (data : Fields) (p t : Str)
    (hp : data.plugin_name = .str p)
    (hm : data.config_type = .str "lazy.nvim".toList ∨ data.config_type = .str "packer".toList)
    (hadd : truthy data.add_config = true)
    (hdeps : data.dependencies ≠ .bool true)
    (ht : (data.setup_config = .undefined ∧ t = []) ∨ data.setup_config = .str t) :
    (∃ before,
      generatePlugin data (.str "lua".toList) = .ok
        (before ++ ".setup(".toList ++ (if trim t = [] then "\x7b\x7d".toList else trim t) ++
          ")\n  end\n\x7d".toList)) ∧
    (∃ a b, t = a ++ trim t ++ b ∧
      (∀ c ∈ a, isStrWhiteSpaceChar c = true) ∧ (∀ c ∈ b, isStrWhiteSpaceChar c = true) ∧
      (∀ c, (trim t).head? = some c → isStrWhiteSpaceChar c = false) ∧
      (∀ c, (trim t).getLast? = some c → isStrWhiteSpaceChar c = false)) ∧
    ((∀ c ∈ t, isStrWhiteSpaceChar c = true) → trim t = []) := by
  refine ⟨?_, trim_decompose t, trim_eq_nil_of_all⟩
  obtain ⟨m, _, hcfg⟩ := configBlock_of_text data p t hp ht
  rw [if_pos hadd] at hcfg
  have harg : (if trim t ≠ [] then trim t else "\x7b\x7d".toList) =
      (if trim t = [] then "\x7b\x7d".toList else trim t) := by
    by_cases h : trim t = [] <;> simp [h]
  rw [harg] at hcfg
  rcases hm with hm | hm
  · obtain ⟨deps, hdf⟩ := depsField_ok data.dependencies ",\n  dependencies = \x7b".toList
      lazyDepLines "\n  \x7d".toList hdeps
    refine ⟨"\x7b\n  '".toList ++ escapeLuaStr p ++ "'".toList ++ deps ++
      (if truthy data.is_optional then ",\n  lazy = true".toList else []) ++
      ",\n  config = function()".toList ++ "\n    require('".toList ++ m ++ "')".toList, ?_⟩
    unfold generatePlugin
    rw [if_pos rfl, if_pos hm, hp, escapeLua_str]
    simp only [bind, Except.bind, pure, Except.pure]
    rw [hdf, hcfg]
    simp
  · obtain ⟨deps, hdf⟩ := depsField_ok data.dependencies ",\n  requires = \x7b".toList
      packerDepItems "\x7d".toList hdeps
    have hne : ¬ (data.config_type = .str "lazy.nvim".toList) := by
      rw [hm]; decide
    refine ⟨"use \x7b\n  '".toList ++ escapeLuaStr p ++ "'".toList ++ deps ++
      (if truthy data.is_optional then ",\n  opt = true".toList else []) ++
      ",\n  config = function()".toList ++ "\n    require('".toList ++ m ++ "')".toList, ?_⟩
    unfold generatePlugin
    rw [if_pos rfl, if_neg hne, if_pos hm, hp, escapeLua_str]
    simp only [bind, Except.bind, pure, Except.pure]
    rw [hdf, hcfg]
    simp

theorem setup_text_trimmed_witness :
    ∃ before,
      generatePlugin paddedSetupPlugin (.str "lua".toList) = .ok
        (before ++ ".setup(".toList ++
          (if trim " \x7b x = 1 \x7d ".toList = [] then "\x7b\x7d".toList else trim " \x7b x = 1 \x7d ".toList) ++
          ")\n  end\n\x7d".toList) :=
  (setup_text_trimmed paddedSetupPlugin "x/y".toList " \x7b x = 1 \x7d ".toList rfl (Or.inl rfl) rfl
    (by decide) (Or.inr rfl)).1

theorem flatMap_lines_eq (first : Str) (f : Str → Str) (D : List Str) :
    first ++ D.flatMap (fun d => "\n".toList ++ f d) =
      "\n".toList.intercalate (first :: D.map f) := by
  rw [← join_eq_intercalate]
  induction D generalizing first with
  | nil => simp [join]
  | cons d D ih =>
    rw [List.flatMap_cons, List.map_cons, join, ← ih (f d)]
    simp

theorem split_lines_append (first : Str) (rest : List Str) (tail : Str)
    (hfirst : '\n' ∉ first) (hrest : ∀ l ∈ rest, '\n' ∉ l) (htail : '\n' ∉ tail) :
    split '\n' ("\n".toList.intercalate (first :: rest) ++ tail) =
      (first :: rest).dropLast ++ [(first :: rest).getLastD [] ++ tail] := by
  rw [← join_eq_intercalate]
  induction rest generalizing first with
  | nil =>
    simp only [join, List.dropLast_single, List.nil_append, List.getLastD_cons, List.getLastD_nil]
    apply split_of_not_mem
    simp [hfirst, htail]
  | cons l rest ih =>
    have h1 : join "\n".toList (first :: l :: rest) ++ tail =
        first ++ '\n' :: (join "\n".toList (l :: rest) ++ tail) := by
      simp [join]
    rw [h1, split_append_sep '\n' _ _ hfirst,
      ih l (hrest l (List.mem_cons_self _ _))
        (fun x hx => hrest x (List.mem_cons_of_mem _ hx))]
    simp [List.dropLast]

/-- C15: with the manager `vim-plug` in a dialect other than `lua` (plugin
name a string, dependencies a string or absent) the output is the line
`Plug '<plugin_name>'` followed by one line `Plug '<dep>'` for each trimmed
non-empty dependency in order, names unescaped, lines separated by line
feeds, with the annotation ` { 'on': [] } " Lazy load` appended once at the
very end exactly when `is_optional` holds.  When the plugin name and the
dependency text hold no line feed, the output has exactly `1 + n` lines, `n`
the number of dependencies. -/
theorem generatePlugin_vimplug (data : Fields) (lang : Val) (p s : Str)
    (hlang : lang ≠ .str "lua".toList) (hm : data.config_type = .str "vim-plug".toList)
    (hp : data.plugin_name = .str p)
    (hd : (data.dependencies = .undefined ∧ s = []) ∨ data.dependencies = .str s) :
    ∃ (D lines : List Str) (note out : Str),
      D = ((split ',' s).map trim).filter (fun d => !d.isEmpty) ∧
      lines = ("Plug '".toList ++ p ++ "'".toList) ::
        D.map (fun d => "Plug '".toList ++ d ++ "'".toList) ∧
      note = (if truthy data.is_optional then " \x7b 'on': [] \x7d \" Lazy load".toList else []) ∧
      out = "\n".toList.intercalate lines ++ note ∧
      generatePlugin data lang = .ok out ∧
      ('\n' ∉ p → '\n' ∉ s →
        (split '\n' out).length = 1 + D.length ∧
        split '\n' out = lines.dropLast ++ [lines.getLastD [] ++ note]) := by
  have hdeps : (if truthy data.dependencies = true then do
        let d ← receiver "dependencies" "split" data.dependencies
        pure ((parseDeps d).flatMap (fun dep => "\nPlug '".toList ++ dep ++ "'".toList))
      else pure [] : Except JSError Str) =
      .ok ((parseDeps s).flatMap (fun dep => "\nPlug '".toList ++ dep ++ "'".toList)) := by
    rcases hd with ⟨hd, rfl⟩ | hd
    · rw [hd]; rfl
    · rw [hd]
      cases s with
      | nil => rfl
      | cons c s => rfl
  have hgen : generatePlugin data lang = .ok
      ("Plug '".toList ++ p ++ "'".toList ++
        (parseDeps s).flatMap (fun dep => "\nPlug '".toList ++ dep ++ "'".toList) ++
        (if truthy data.is_optional then " \x7b 'on': [] \x7d \" Lazy load".toList else [])) := by
    unfold generatePlugin
    rw [if_neg hlang, if_pos hm, hdeps, hp]
    rfl
  have hflat : (parseDeps s).flatMap (fun dep => "\nPlug '".toList ++ dep ++ "'".toList) =
      (parseDeps s).flatMap
        (fun dep => "\n".toList ++ (fun d => "Plug '".toList ++ d ++ "'".toList) dep) := by
    congr 1
  refine ⟨parseDeps s, _, _, _, rfl, rfl, rfl, rfl, ?_, ?_⟩
  · rw [hgen, hflat, flatMap_lines_eq]
  · intro hpn hsn
    have hsplit := split_lines_append ("Plug '".toList ++ p ++ "'".toList)
      ((parseDeps s).map (fun d => "Plug '".toList ++ d ++ "'".toList))
      (if truthy data.is_optional then " \x7b 'on': [] \x7d \" Lazy load".toList else [])
      (by
        simp only [List.mem_append, not_or]
        exact ⟨⟨by decide, hpn⟩, by decide⟩)
      (by
        intro l hl
        obtain ⟨d, hdm, rfl⟩ := List.mem_map.mp hl
        simp only [List.mem_append, not_or]
        refine ⟨⟨by decide, fun hc => hsn ((mem_parseDeps s d hdm).2 _ hc).1⟩, by decide⟩)
      (by split <;> decide)
    refine ⟨?_, hsplit⟩
    rw [hsplit]
    simp
    omega

theorem generatePlugin_vimplug_witness :
    ∃ (D lines : List Str) (note out : Str),
      D = ["a/b".toList, "c/d".toList] ∧
      lines = ["Plug 'x/y'".toList, "Plug 'a/b'".toList, "Plug 'c/d'".toList] ∧
      note = " \x7b 'on': [] \x7d \" Lazy load".toList ∧
      generatePlugin plugWithDeps (.str "vimscript".toList) = .ok out ∧
      (split '\n' out).length = 1 + D.length :=
  match generatePlugin_vimplug plugWithDeps (.str "vimscript".toList) "x/y".toList
      "a/b, c/d".toList (by decide) rfl rfl (Or.inr rfl) with
  | ⟨D, lines, note, out, hD, hl, hn, _, hg, hsplit⟩ =>
    ⟨D, lines, note, out, hD.trans (by decide), hl.trans (by subst hD; decide),
      hn.trans (by decide), hg, (hsplit (by decide) (by decide)).1⟩

theorem dispatch_keymap (lang : Val) (data : Fields) :
    dispatch ⟨.str "Keymap".toList, lang, data⟩ = generateKeymap data lang := rfl

theorem dispatch_plugin (lang : Val) (data : Fields) :
    dispatch ⟨.str "Plugin".toList, lang, data⟩ = generatePlugin data lang := rfl

theorem dispatch_option (lang : Val) (data : Fields) :
    dispatch ⟨.str "Option".toList, lang, data⟩ = generateOption data lang := rfl

theorem dispatch_autocmd (lang : Val) (data : Fields) :
    dispatch ⟨.str "Autocmd".toList, lang, data⟩ = generateAutocmd data lang := rfl

theorem raises_bind_left {α β : Type} {x : Except JSError α} (f : α → Except JSError β)
    (h : Raises x) : Raises (x >>= f) := by
  obtain ⟨e, rfl⟩ := h
  exact ⟨e, rfl⟩

theorem raises_bind_right {α β : Type} (x : Except JSError α) {f : α → Except JSError β}
    (h : ∀ a, Raises (f a)) : Raises (x >>= f) := by
  cases x with
  | error e => exact ⟨e, rfl⟩
  | ok a => exact h a

theorem raises_receiver (name method : String) {v : Val} (h : v.isStr = false) :
    Raises (receiver name method v) := by
  cases v with
  | str s => simp [Val.isStr] at h
  | undefined => exact ⟨_, rfl⟩
  | bool b => exact ⟨_, rfl⟩

theorem raises_escapeLua {v : Val} (h : v.isStr = false) : Raises (escapeLua v) :=
  raises_bind_left _ (raises_receiver _ _ h)

theorem raises_parseLuaValue {v : Val} (h : v.isStr = false) : Raises (parseLuaValue v) := by
  cases v with
  | str s => simp [Val.isStr] at h
  | undefined => exact ⟨_, rfl⟩
  | bool b => exact ⟨_, rfl⟩

theorem raises_autocmdAction {v : Val} (h : v.isStr = false) : Raises (autocmdAction v) :=
  raises_bind_left _ (raises_receiver _ _ h)

theorem raises_generateKeymap_lua (data : Fields)
    (h : data.lhs.isStr = false ∨ data.rhs.isStr = false) :
    Raises (generateKeymap data (.str "lua".toList)) := by
  unfold generateKeymap
  rw [if_pos rfl]
  refine raises_bind_right _ (fun opts => ?_)
  rcases h with h | h
  · exact raises_bind_left _ (raises_escapeLua h)
  · exact raises_bind_right _ (fun l => raises_bind_left _ (raises_escapeLua h))

theorem raises_generateOption_lua (data : Fields) (h : data.option_value.isStr = false) :
    Raises (generateOption data (.str "lua".toList)) := by
  unfold generateOption
  dsimp only
  rw [if_pos rfl]
  exact raises_bind_left _ (raises_parseLuaValue h)

theorem raises_generateAutocmd_lua (data : Fields)
    (h : data.pattern.isStr = false ∨ data.command.isStr = false) :
    Raises (generateAutocmd data (.str "lua".toList)) := by
  unfold generateAutocmd
  rw [if_pos rfl]
  rcases h with h | h
  · split
    · exact raises_bind_left _ (raises_escapeLua h)
    · exact raises_bind_left _ (raises_escapeLua h)
  · split
    · exact raises_bind_right _ (fun p => raises_bind_left _ (raises_autocmdAction h))
    · exact raises_bind_right _ (fun p => raises_bind_left _ (raises_autocmdAction h))

theorem raises_generatePlugin_lua (data : Fields)
    (hm : data.config_type = .str "lazy.nvim".toList ∨ data.config_type = .str "packer".toList)
    (h : data.plugin_name.isStr = false) :
    Raises (generatePlugin data (.str "lua".toList)) := by
  unfold generatePlugin
  rw [if_pos rfl]
  rcases hm with hm | hm
  · rw [if_pos hm]
    exact raises_bind_left _ (raises_escapeLua h)
  · have hne : ¬ (data.config_type = .str "lazy.nvim".toList) := by rw [hm]; decide
    rw [if_neg hne, if_pos hm]
    exact raises_bind_left _ (raises_escapeLua h)

/-- C21: for a supported category in dialect `lua`, a fields record that lacks
a string field the template escapes or inspects (Keymap: lhs or rhs; Option:
option_value; Autocmd: pattern or command; Plugin under `lazy.nvim` or
`packer`: plugin_name) makes the generator raise, and the dispatch boundary
turns the exception into the failure result: `success = false`, a non-empty
error message, empty code.  The function is total, so no exception escapes. -/
theorem generateVimConfig_catches (configType : Val) (data : Fields)
    (h : LacksStringField configType data) :
    ∃ message, message ≠ [] ∧
      generateVimConfig ⟨configType, .str "lua".toList, data⟩ =
        { success := false, code := [], language := none, error := some message } := by
  have hr : Raises (dispatch ⟨configType, .str "lua".toList, data⟩) := by
    rcases h with ⟨hc, h⟩ | ⟨hc, h⟩ | ⟨hc, h⟩ | ⟨hc, hm, h⟩
    · rw [hc, dispatch_keymap]
      exact raises_generateKeymap_lua data h
    · rw [hc, dispatch_option]
      exact raises_generateOption_lua data h
    · rw [hc, dispatch_autocmd]
      exact raises_generateAutocmd_lua data h
    · rw [hc, dispatch_plugin]
      exact raises_generatePlugin_lua data hm h
  obtain ⟨e, he⟩ := hr
  refine ⟨e.message, (good_dispatch _).1 e he, ?_⟩
  simp only [generateVimConfig, he]

theorem generateVimConfig_catches_witness :
    ∃ message, message ≠ [] ∧
      generateVimConfig
          ⟨.str "Keymap".toList, .str "lua".toList,
            { mode := .str "n".toList, lhs := .str "<leader>ff".toList }⟩ =
        { success := false, code := [], language := none, error := some message } :=
  generateVimConfig_catches (.str "Keymap".toList)
    { mode := .str "n".toList, lhs := .str "<leader>ff".toList }
    (Or.inl ⟨rfl, Or.inr rfl⟩)

theorem generateKeymap_other_dialect (data : Fields) (d : Val) (hd : d ≠ .str "lua".toList) :
    generateKeymap data d = generateKeymap data (.str "vimscript".toList) := by
  rw [generateKeymap_vimscript data d hd,
    generateKeymap_vimscript data (.str "vimscript".toList) (by decide)]

theorem generatePlugin_other_dialect (data : Fields) (d : Val) (hd : d ≠ .str "lua".toList) :
    generatePlugin data d = generatePlugin data (.str "vimscript".toList) := by
  have hv : ¬ (Val.str "vimscript".toList = .str "lua".toList) := by decide
  unfold generatePlugin
  rw [if_neg hd, if_neg hv]

theorem generateOption_other_dialect (data : Fields) (d : Val) (hd : d ≠ .str "lua".toList) :
    generateOption data d = generateOption data (.str "vimscript".toList) := by
  have hv : ¬ (Val.str "vimscript".toList = .str "lua".toList) := by decide
  unfold generateOption
  dsimp only
  rw [if_neg hd, if_neg hv]

theorem generateAutocmd_other_dialect (data : Fields) (d : Val) (hd : d ≠ .str "lua".toList) :
    generateAutocmd data d = generateAutocmd data (.str "vimscript".toList) := by
  have hv : ¬ (Val.str "vimscript".toList = .str "lua".toList) := by decide
  unfold generateAutocmd
  rw [if_neg hd, if_neg hv]

theorem generateOption_vimscript_ok (data : Fields) :
    ∃ code, generateOption data (.str "vimscript".toList) = .ok code := by
  have hv : ¬ (Val.str "vimscript".toList = .str "lua".toList) := by decide
  unfold generateOption
  dsimp only
  rw [if_neg hv]
  split
  · exact ⟨_, rfl⟩
  · split
    · exact ⟨_, rfl⟩
    · split <;> exact ⟨_, rfl⟩

theorem generateAutocmd_vimscript_ok (data : Fields) :
    ∃ code, generateAutocmd data (.str "vimscript".toList) = .ok code := by
  have hv : ¬ (Val.str "vimscript".toList = .str "lua".toList) := by decide
  unfold generateAutocmd
  rw [if_neg hv]
  split <;> exact ⟨_, rfl⟩

theorem generatePlugin_vimscript_ok (data : Fields)
    (h : ¬ (data.config_type = .str "vim-plug".toList ∧ data.dependencies = .bool true)) :
    ∃ code, generatePlugin data (.str "vimscript".toList) = .ok code := by
  have hv : ¬ (Val.str "vimscript".toList = .str "lua".toList) := by decide
  unfold generatePlugin
  rw [if_neg hv]
  by_cases hm : data.config_type = .str "vim-plug".toList
  · rw [if_pos hm]
    cases hdv : data.dependencies with
    | undefined => exact ⟨_, rfl⟩
    | bool b =>
      cases b with
      | true => exact absurd ⟨hm, hdv⟩ h
      | false => exact ⟨_, rfl⟩
    | str s =>
      cases s with
      | nil => exact ⟨_, rfl⟩
      | cons c s => exact ⟨_, rfl⟩
  · rw [if_neg hm]
    split <;> exact ⟨_, rfl⟩

/-- C25: dialect selection tests only for the exact string `lua`.  For every
supported category, every fields record and every dialect value other than
`lua` (another string, the empty string, an absent dialect) the result has the
same code, the same success flag and the same error as the result for the
dialect `vimscript`; it is a success echoing the given dialect in `language`,
for every record but a `vim-plug` plugin request whose `dependencies` field is
the boolean `true` instead of a string. -/
theorem dialect_other_than_lua (configType d : Val) (data : Fields)
    (hct : configType = .str "Keymap".toList ∨ configType = .str "Plugin".toList ∨
      configType = .str "Option".toList ∨ configType = .str "Autocmd".toList)
    (hd : d ≠ .str "lua".toList) :
    (generateVimConfig ⟨configType, d, data⟩).code =
        (generateVimConfig ⟨configType, .str "vimscript".toList, data⟩).code ∧
    (generateVimConfig ⟨configType, d, data⟩).success =
        (generateVimConfig ⟨configType, .str "vimscript".toList, data⟩).success ∧
    (generateVimConfig ⟨configType, d, data⟩).error =
        (generateVimConfig ⟨configType, .str "vimscript".toList, data⟩).error ∧
    (¬ (configType = .str "Plugin".toList ∧ data.config_type = .str "vim-plug".toList ∧
          data.dependencies = .bool true) →
      (generateVimConfig ⟨configType, d, data⟩).success = true ∧
      (generateVimConfig ⟨configType, d, data⟩).language = some d) := by
  have hdisp : dispatch ⟨configType, d, data⟩ =
      dispatch ⟨configType, .str "vimscript".toList, data⟩ := by
    rcases hct with h | h | h | h
    · rw [h, dispatch_keymap, dispatch_keymap, generateKeymap_other_dialect data d hd]
    · rw [h, dispatch_plugin, dispatch_plugin, generatePlugin_other_dialect data d hd]
    · rw [h, dispatch_option, dispatch_option, generateOption_other_dialect data d hd]
    · rw [h, dispatch_autocmd, dispatch_autocmd, generateAutocmd_other_dialect data d hd]
  have hsame : ∀ r : Except JSError Str,
      (match r with
        | .ok c => ({ success := true, code := c, language := some d, error := none } : Result)
        | .error e => { success := false, code := [], language := none,
                        error := some e.message }).code =
      (match r with
        | .ok c => ({ success := true, code := c,
                      language := some (Val.str "vimscript".toList), error := none } : Result)
        | .error e => { success := false, code := [], language := none,
                        error := some e.message }).code ∧
      (match r with
        | .ok c => ({ success := true, code := c, language := some d, error := none } : Result)
        | .error e => { success := false, code := [], language := none,
                        error := some e.message }).success =
      (match r with
        | .ok c => ({ success := true, code := c,
                      language := some (Val.str "vimscript".toList), error := none } : Result)
        | .error e => { success := false, code := [], language := none,
                        error := some e.message }).success ∧
      (match r with
        | .ok c => ({ success := true, code := c, language := some d, error := none } : Result)
        | .error e => { success := false, code := [], language := none,
                        error := some e.message }).error =
      (match r with
        | .ok c => ({ success := true, code := c,
                      language := some (Val.str "vimscript".toList), error := none } : Result)
        | .error e => { success := false, code := [], language := none,
                        error := some e.message }).error := by
    intro r
    cases r <;> exact ⟨rfl, rfl, rfl⟩
  have h3 := hsame (dispatch ⟨configType, .str "vimscript".toList, data⟩)
  refine ⟨?_, ?_, ?_, ?_⟩
  · unfold generateVimConfig
    rw [hdisp]
    exact h3.1
  · unfold generateVimConfig
    rw [hdisp]
    exact h3.2.1
  · unfold generateVimConfig
    rw [hdisp]
    exact h3.2.2
  · intro hbad
    have hok : ∃ code, dispatch ⟨configType, .str "vimscript".toList, data⟩ = .ok code := by
      rcases hct with h | h | h | h
      · rw [h, dispatch_keymap]
        exact ⟨_, generateKeymap_vimscript data _ (by decide)⟩
      · rw [h, dispatch_plugin]
        exact generatePlugin_vimscript_ok data (fun hb => hbad ⟨h, hb.1, hb.2⟩)
      · rw [h, dispatch_option]
        exact generateOption_vimscript_ok data
      · rw [h, dispatch_autocmd]
        exact generateAutocmd_vimscript_ok data
    obtain ⟨code, hcode⟩ := hok
    unfold generateVimConfig
    rw [hdisp, hcode]
    exact ⟨rfl, rfl⟩

theorem dialect_other_than_lua_witness :
    (generateVimConfig ⟨.str "Keymap".toList, .str "Lua".toList, telescopeKeymap⟩).code =
        (generateVimConfig
          ⟨.str "Keymap".toList, .str "vimscript".toList, telescopeKeymap⟩).code ∧
    (generateVimConfig ⟨.str "Keymap".toList, .str "Lua".toList, telescopeKeymap⟩).success =
        true ∧
    (generateVimConfig ⟨.str "Keymap".toList, .str "Lua".toList, telescopeKeymap⟩).language =
        some (.str "Lua".toList) :=
  match dialect_other_than_lua (.str "Keymap".toList) (.str "Lua".toList) telescopeKeymap
      (Or.inl rfl) (by decide) with
  | ⟨hc, _, _, hs⟩ => ⟨hc, hs (fun h => absurd h.1 (by decide))⟩

theorem replaceAll_append (c : Char) (rep a b : Str) :
    replaceAll c rep (a ++ b) = replaceAll c rep a ++ replaceAll c rep b := by
  simp [replaceAll, List.flatMap_append]

theorem replaceAll_of_not_mem (c : Char) (rep a : Str) (h : c ∉ a) :
    replaceAll c rep a = a := by
  induction a with
  | nil => rfl
  | cons x a ih =>
    have hx : ¬ (x = c) := fun hx => h (by simp [hx])
    have ha : c ∉ a := fun ha => h (List.mem_cons_of_mem _ ha)
    have := ih ha
    simp only [replaceAll, List.flatMap_cons, if_neg hx] at this ⊢
    rw [this]
    rfl

theorem escapeLuaStr_append (a b : Str) :
    escapeLuaStr (a ++ b) = escapeLuaStr a ++ escapeLuaStr b := by
  simp [escapeLuaStr, replaceAll_append]

theorem escapeLuaStr_singleton (c : Char) : escapeLuaStr [c] = escapeUnit c := by
  unfold escapeUnit
  by_cases h1 : c = '\\'
  · subst h1; decide
  · by_cases h2 : c = '\''
    · subst h2; decide
    · by_cases h3 : c = '\n'
      · subst h3; decide
      · rw [if_neg h1, if_neg h2, if_neg h3]
        unfold escapeLuaStr
        rw [replaceAll_of_not_mem '\\' _ [c] (by simp; exact fun h => h1 h.symm),
          replaceAll_of_not_mem '\'' _ [c] (by simp; exact fun h => h2 h.symm),
          replaceAll_of_not_mem '\n' _ [c] (by simp; exact fun h => h3 h.symm)]

theorem escapeLuaStr_cons (c : Char) (s : Str) :
    escapeLuaStr (c :: s) = escapeUnit c ++ escapeLuaStr s := by
  rw [← escapeLuaStr_singleton, ← escapeLuaStr_append]
  rfl

theorem escapeLuaStr_eq_flatMap (s : Str) : escapeLuaStr s = s.flatMap escapeUnit := by
  induction s with
  | nil => rfl
  | cons c s ih => rw [escapeLuaStr_cons, List.flatMap_cons, ih]

theorem isEscapeUnit_escapeUnit (c : Char) : IsEscapeUnit (escapeUnit c) := by
  unfold escapeUnit IsEscapeUnit
  by_cases h1 : c = '\\'
  · rw [if_pos h1]; exact Or.inr (Or.inl rfl)
  · by_cases h2 : c = '\''
    · rw [if_neg h1, if_pos h2]; exact Or.inr (Or.inr (Or.inl rfl))
    · by_cases h3 : c = '\n'
      · rw [if_neg h1, if_neg h2, if_pos h3]; exact Or.inr (Or.inr (Or.inr rfl))
      · rw [if_neg h1, if_neg h2, if_neg h3]; exact Or.inl ⟨c, rfl, h1, h2, h3⟩

theorem line_feed_not_mem_escapeUnit (c : Char) : '\n' ∉ escapeUnit c := by
  unfold escapeUnit
  by_cases h1 : c = '\\'
  · rw [if_pos h1]; decide
  · by_cases h2 : c = '\''
    · rw [if_neg h1, if_pos h2]; decide
    · by_cases h3 : c = '\n'
      · rw [if_neg h1, if_neg h2, if_pos h3]; decide
      · rw [if_neg h1, if_neg h2, if_neg h3]
        simp only [List.mem_singleton]
        exact fun h => h3 h.symm

theorem line_feed_not_mem_escapeLuaStr (s : Str) : '\n' ∉ escapeLuaStr s := by
  rw [escapeLuaStr_eq_flatMap, List.mem_flatMap]
  rintro ⟨c, _, hc⟩
  exact line_feed_not_mem_escapeUnit c hc

theorem unescapeLua_escapeLuaStr (s : Str) : unescapeLua (escapeLuaStr s) = s := by
  induction s with
  | nil => rfl
  | cons c s ih =>
    rw [escapeLuaStr_cons]
    unfold escapeUnit
    by_cases h1 : c = '\\'
    · rw [if_pos h1, h1]
      show unescapeLua ('\\' :: '\\' :: escapeLuaStr s) = _
      rw [unescapeLua, if_pos rfl, if_neg (by decide), ih]
    · by_cases h2 : c = '\''
      · rw [if_neg h1, if_pos h2, h2]
        show unescapeLua ('\\' :: '\'' :: escapeLuaStr s) = _
        rw [unescapeLua, if_pos rfl, if_neg (by decide), ih]
      · by_cases h3 : c = '\n'
        · rw [if_neg h1, if_neg h2, if_pos h3, h3]
          show unescapeLua ('\\' :: 'n' :: escapeLuaStr s) = _
          rw [unescapeLua, if_pos rfl, if_pos rfl, ih]
        · rw [if_neg h1, if_neg h2, if_neg h3]
          show unescapeLua (c :: escapeLuaStr s) = _
          cases hs : escapeLuaStr s with
          | nil =>
            rw [hs] at ih
            rw [unescapeLua, ← ih]
            rfl
          | cons d r =>
            rw [unescapeLua, if_neg h1, ← hs, ih]

/-- C24: `escapeLua` is injective on strings: `unescapeLua` reads every escaped
text back to the string it came from, so two different strings never have the
same escaped text; a line feed and the two characters backslash, `n` are
escaped differently. -/
theorem escapeLua_injective :
    (∃ u : Str → Str, ∀ s, u (escapeLuaStr s) = s) ∧
    (∀ s, escapeLua (.str s) = .ok (escapeLuaStr s)) ∧
    Function.Injective escapeLuaStr ∧
    escapeLuaStr "\n".toList ≠ escapeLuaStr "\\n".toList := by
  refine ⟨⟨unescapeLua, unescapeLua_escapeLuaStr⟩, fun s => rfl, ?_, by decide⟩
  intro a b h
  rw [← unescapeLua_escapeLuaStr a, ← unescapeLua_escapeLuaStr b, h]

theorem trailingBackslashes_snoc (a : Str) (c : Char) :
    trailingBackslashes (a ++ [c]) = if c = '\\' then trailingBackslashes a + 1 else 0 := by
  unfold trailingBackslashes
  rw [List.reverse_append, List.reverse_singleton, List.singleton_append, List.takeWhile_cons]
  by_cases h : c = '\\' <;> simp [h]

theorem append_eq_append_cons {t u a b : Str} {q : Char} (h : t ++ u = a ++ q :: b) :
    (∃ b0, t = a ++ q :: b0 ∧ b = b0 ++ u) ∨ (∃ a1, a = t ++ a1 ∧ u = a1 ++ q :: b) := by
  rcases List.append_eq_append_iff.mp h with ⟨a1, ha, hu⟩ | ⟨c1, ht, hq⟩
  · exact Or.inr ⟨a1, ha, hu⟩
  · cases c1 with
    | nil =>
      refine Or.inr ⟨[], ?_, ?_⟩
      · simpa using ht.symm
      · simpa using hq.symm
    | cons x c1 =>
      simp only [List.cons_append, List.cons.injEq] at hq
      obtain ⟨rfl, rfl⟩ := hq
      exact Or.inl ⟨c1, ht, rfl⟩

theorem quotes_escaped_aux (s : Str) :
    (∀ a b, escapeLuaStr s = a ++ '\'' :: b → trailingBackslashes a % 2 = 1) ∧
    trailingBackslashes (escapeLuaStr s) % 2 = 0 := by
  induction s using List.reverseRecOn with
  | nil =>
    refine ⟨fun a b h => ?_, rfl⟩
    have : escapeLuaStr [] = [] := rfl
    rw [this] at h
    simp at h
  | append_singleton s c ih =>
    obtain ⟨ihq, iht⟩ := ih
    rw [escapeLuaStr_append, escapeLuaStr_singleton]
    unfold escapeUnit
    by_cases h1 : c = '\\'
    · rw [if_pos h1]
      refine ⟨fun a b h => ?_, ?_⟩
      · rcases append_eq_append_cons h with ⟨b0, ht, _⟩ | ⟨a1, _, hu⟩
        · exact ihq a b0 ht
        · have hm : '\'' ∈ "\\\\".toList := by rw [hu]; simp
          exact absurd hm (by decide)
      · have : escapeLuaStr s ++ "\\\\".toList = (escapeLuaStr s ++ ['\\']) ++ ['\\'] := by
          simp
        rw [this, trailingBackslashes_snoc, trailingBackslashes_snoc, if_pos rfl, if_pos rfl]
        omega
    · by_cases h2 : c = '\''
      · rw [if_neg h1, if_pos h2]
        refine ⟨fun a b h => ?_, ?_⟩
        · rcases append_eq_append_cons h with ⟨b0, ht, _⟩ | ⟨a1, ha, hu⟩
          · exact ihq a b0 ht
          · cases a1 with
            | nil =>
              have hh := congrArg List.head? hu
              simp at hh
            | cons x a1 =>
              cases a1 with
              | nil =>
                have hx : x = '\\' := by
                  have := congrArg List.head? hu
                  simpa using this.symm
                rw [ha, hx, trailingBackslashes_snoc, if_pos rfl]
                omega
              | cons y a1 =>
                have hlen := congrArg List.length hu
                simp at hlen
        · have : escapeLuaStr s ++ "\\'".toList = (escapeLuaStr s ++ ['\\']) ++ ['\''] := by
            simp
          rw [this, trailingBackslashes_snoc, if_neg (by decide)]
      · by_cases h3 : c = '\n'
        · rw [if_neg h1, if_neg h2, if_pos h3]
          refine ⟨fun a b h => ?_, ?_⟩
          · rcases append_eq_append_cons h with ⟨b0, ht, _⟩ | ⟨a1, _, hu⟩
            · exact ihq a b0 ht
            · have hm : '\'' ∈ "\\n".toList := by rw [hu]; simp
              exact absurd hm (by decide)
          · have : escapeLuaStr s ++ "\\n".toList = (escapeLuaStr s ++ ['\\']) ++ ['n'] := by
              simp
            rw [this, trailingBackslashes_snoc, if_neg (by decide)]
        · rw [if_neg h1, if_neg h2, if_neg h3]
          refine ⟨fun a b h => ?_, ?_⟩
          · rcases append_eq_append_cons h with ⟨b0, ht, _⟩ | ⟨a1, _, hu⟩
            · exact ihq a b0 ht
            · have hm : '\'' ∈ [c] := by rw [hu]; simp
              simp only [List.mem_singleton] at hm
              exact absurd hm.symm h2
          · rw [trailingBackslashes_snoc, if_neg h1]

/-- What `escapeLua` guarantees for every string: the result holds no line
feed, every single quote in it comes right after a run of backslashes of odd
length (the run taken as long as possible), and the result is a concatenation
of units, each one character other than backslash, single quote and line feed,
or one of the escapes backslash-backslash, backslash-quote, backslash-`n`.  A
carriage return is such a one-character unit: it is not rewritten. -/
theorem escapeLua_escapes_quote_and_line_feed (s : Str) :
    escapeLua (.str s) = .ok (escapeLuaStr s) ∧
    '\n' ∉ escapeLuaStr s ∧
    (∀ a b, escapeLuaStr s = a ++ '\'' :: b → trailingBackslashes a % 2 = 1) ∧
    (∃ units : List Str, escapeLuaStr s = units.flatten ∧ ∀ u ∈ units, IsEscapeUnit u) := by
  refine ⟨rfl, line_feed_not_mem_escapeLuaStr s, (quotes_escaped_aux s).1,
    s.map escapeUnit, ?_, ?_⟩
  · rw [escapeLuaStr_eq_flatMap, List.flatMap_def]
  · intro u hu
    obtain ⟨c, _, rfl⟩ := List.mem_map.mp hu
    exact isEscapeUnit_escapeUnit c

/-- C23, the failing input: a carriage return is returned raw, and a raw
carriage return inside a quoted Lua string ends the line (Lua reports an
unfinished string).  `escapeLua` rewrites only the backslash, the single quote
and the line feed: the text of one carriage return comes back unchanged, the
keymap generator in dialect `lua` puts the carriage return of the rhs between
the quotes of the third argument, and the autocmd generator puts the one of the
command between the quotes of `command = '...'`.  The same command with a line
feed in that place is escaped to backslash-`n`. -/
theorem escapeLua_carriage_return_raw :
    escapeLua (.str "\r".toList) = .ok "\r".toList ∧
    '\r' ∈ escapeLuaStr "echo 1\recho 2".toList ∧
    (generateVimConfig
        { configType := .str "Keymap".toList, configLang := .str "lua".toList,
          data := crKeymap }).code =
      "vim.keymap.set('n', '<leader>e', ':echo 1\r', \x7b noremap = true \x7d)".toList ∧
    (generateVimConfig
        { configType := .str "Autocmd".toList, configLang := .str "lua".toList,
          data := crAutocmd }).code =
      ("vim.api.nvim_create_autocmd('BufWritePre', \x7b\n  pattern = '*',\n".toList ++
        "  command = 'echo 1\recho 2',\n\x7d)".toList) ∧
    escapeLua (.str "echo 1\necho 2".toList) = .ok "echo 1\\necho 2".toList := by
  refine ⟨rfl, by decide, ?_, ?_, rfl⟩
  · rfl
  · rfl

end VimAi
